import Mathlib

set_option maxHeartbeats 1000000

/-!
Shallow embedding of the clickorm-ch SQL-compilation core
(src/clickorm_ch: dialect, expressions, compiler, query, ddl, insert_builder, engine).
Python strings are modelled as `List Char`.
-/

/-- ASCII whitespace recognized by Python strip/split (codepoints 32, 9, 10, 13, 11, 12). -/
def isPySpace (c : Char) : Bool :=
  c == ' ' || c == '\t' || c == '\n' || c == '\r' || c == Char.ofNat 11 || c == Char.ofNat 12

/-- Python `str.strip()`. -/
def pyStrip (l : List Char) : List Char :=
  ((l.dropWhile isPySpace).reverse.dropWhile isPySpace).reverse

/-- Python `str.lower()` on one character (ASCII; keywords in this code are ASCII). -/
def lowerC (c : Char) : Char := c.toLower

/-- Python `str.lower()`. -/
def lowerL (l : List Char) : List Char := l.map lowerC

/-- Python `sep.join(parts)`. -/
def joinSep (sep : List Char) : List (List Char) → List Char
  | [] => []
  | [x] => x
  | x :: xs => x ++ sep ++ joinSep sep xs

/-- The single-quote character (codepoint 39). -/
def squo : Char := Char.ofNat 39

/-- The backtick character (codepoint 96). -/
def btick : Char := Char.ofNat 96

/-- Python startswith-and-endswith for a one-character quote `c`. -/
def sewq (s : List Char) (c : Char) : Bool :=
  match s.head?, s.getLast? with
  | some a, some b => a == c && b == c
  | _, _ => false

/-- dialect.strip_any_quotes. -/
def strip_any_quotes (name : List Char) : List Char :=
  if name = [] then name
  else
    let s := pyStrip name
    if sewq s '"' || sewq s btick || sewq s squo then (s.drop 1).dropLast else s

/-- Python `raw.replace(dq, dq+dq)` where dq is the double-quote character. -/
def replDQ : List Char → List Char
  | [] => []
  | c :: rest => if c = '"' then '"' :: '"' :: replDQ rest else c :: replDQ rest

/-- dialect.quote_ident. -/
def quote_ident (name : List Char) : List Char :=
  '"' :: replDQ (strip_any_quotes name) ++ ['"']

/-- Inverts the doubling of double-quote characters: fails on any lone
(improperly escaped) double quote. -/
def undouble : List Char → Option (List Char)
  | [] => some []
  | '"' :: '"' :: rest => (undouble rest).map (fun l => '"' :: l)
  | '"' :: _ => none
  | c :: rest => (undouble rest).map (fun l => c :: l)

/-- dialect.render_table_name: split at the first dot when any dot is present. -/
def render_table_name (name : List Char) : List Char :=
  let s := pyStrip name
  if s.contains '.' then
    let db := s.takeWhile (fun c => c ≠ '.')
    let tbl := (s.dropWhile (fun c => c ≠ '.')).drop 1
    quote_ident db ++ '.' :: quote_ident tbl
  else
    quote_ident s

/-- Decimal digits of a natural number, fuel-based so that it reduces in the kernel. -/
def decReprF : Nat → Nat → List Char
  | 0, _ => []
  | fuel + 1, n =>
      if n < 10 then [Nat.digitChar n]
      else decReprF fuel (n / 10) ++ [Nat.digitChar (n % 10)]

/-- Decimal rendering of a natural number, as Python `str(n)` / f-string formatting. -/
def decRepr (n : Nat) : List Char := decReprF (n + 1) n

/-- Python `str(i)` for an int. -/
def intRepr (i : Int) : List Char :=
  if i < 0 then '-' :: decRepr i.natAbs else decRepr i.natAbs

/-- Reads a decimal digit string back (inverse of `decRepr`). -/
def valD (l : List Char) : Nat :=
  l.foldl (fun a c => 10 * a + (c.toNat - 48)) 0

/-- The allocator-issued parameter name pN for counter value N (Compiler.add_param). -/
def pname (i : Nat) : List Char := 'p' :: decRepr i

/-- The placeholder fragment the driver substitutes, for counter value N. -/
def phText (i : Nat) : List Char := '%' :: '(' :: pname i ++ [')', 's']

/-- Opaque scalar or list values bound as parameters (Python `Any` at this boundary). -/
inductive Value where
  | int (n : Int)
  | str (s : List Char)
  | list (vs : List Value)

/-- expressions: ColumnExpr / ValueExpr / BinaryExpr (and LogicalExpr, which shares
BinaryExpr.to_sql) / the `_Raw` passthrough node made by Query.filter on a str. -/
inductive Expr where
  | col (name : List Char)
  | val (v : Value)
  | bin (l : Expr) (op : List Char) (r : Expr)
  | raw (s : List Char)

/-- Result of compiling one expression node: SQL fragment, bindings, next counter. -/
structure SqlFrag where
  text : List Char
  params : List (List Char × Value)
  ctr : Nat

/-- expressions.Expr.to_sql, against a Compiler whose parameter counter is `i`. -/
def Expr.to_sql : Expr → Nat → SqlFrag
  | .col n, i => ⟨quote_ident n, [], i⟩
  | .val v, i => ⟨phText i, [(pname i, v)], i + 1⟩
  | .bin l op r, i =>
      let lf := l.to_sql i
      let rf := r.to_sql lf.ctr
      ⟨'(' :: lf.text ++ ' ' :: op ++ ' ' :: rf.text ++ [')'], lf.params ++ rf.params, rf.ctr⟩
  | .raw s, i => ⟨s, [], i⟩

/-- Number of ValueExpr (literal) nodes in an expression tree. -/
def numVals : Expr → Nat
  | .col _ => 0
  | .val _ => 1
  | .bin l _ r => numVals l + numVals r
  | .raw _ => 0

/-- Replace every literal value in the tree (keeps the shape). -/
def mapValues (f : Value → Value) : Expr → Expr
  | .col n => .col n
  | .val v => .val (f v)
  | .bin l op r => .bin (mapValues f l) op (mapValues f r)
  | .raw s => .raw s

/-- Column names and the table name of a model class, as Compiler.select consumes them. -/
structure PyModel where
  columns : List (List Char)
  table : List Char

/-- Joining with a comma and a space. -/
def joinCS : List (List Char) → List Char := joinSep ((", ").toList)

/-- The LIMIT/OFFSET tail of compiler.Compiler.select: each bound value is
allocated its own sequential parameter, never inlined. -/
def selectTail2 (s2 : List Char) (p1 : List (List Char × Value)) (i1 : Nat)
    (lim off : Option Int) : List Char × List (List Char × Value) :=
  let st3 : List Char × List (List Char × Value) × Nat :=
    match lim with
    | none => (s2, p1, i1)
    | some n => (s2 ++ (" LIMIT ").toList ++ phText i1,
                 p1 ++ [(pname i1, Value.int n)], i1 + 1)
  match off with
  | none => (st3.1, st3.2.1)
  | some n => (st3.1 ++ (" OFFSET ").toList ++ phText st3.2.2,
               st3.2.1 ++ [(pname st3.2.2, Value.int n)])

/-- The ORDER BY / LIMIT / OFFSET tail of compiler.Compiler.select, applied to the
text, parameter map and counter accumulated after the WHERE step. -/
def selectTail (st1 : List Char × List (List Char × Value) × Nat)
    (ob : Option (List (List Char × List Char))) (lim off : Option Int) :
    List Char × List (List Char × Value) :=
  let s2 : List Char :=
    match ob with
    | none => st1.1
    | some l =>
        if l = [] then st1.1
        else st1.1 ++ (" ORDER BY ").toList ++
          joinCS (l.map (fun cd => quote_ident cd.1 ++ ' ' :: cd.2))
  selectTail2 s2 st1.2.1 st1.2.2 lim off

/-- compiler.Compiler.select on a fresh Compiler (counter 0). -/
def Compiler.select (model : PyModel) (w : Option Expr)
    (ob : Option (List (List Char × List Char))) (lim off : Option Int) :
    List Char × List (List Char × Value) :=
  let cols := match model.columns with
    | [] => ("*").toList
    | l => joinCS (l.map quote_ident)
  let tbl := render_table_name model.table
  let s0 := ("SELECT ").toList ++ cols ++ (" FROM ").toList ++ tbl
  let st1 : List Char × List (List Char × Value) × Nat :=
    match w with
    | none => (s0, [], 0)
    | some e =>
        let r := e.to_sql 0
        (s0 ++ (" WHERE ").toList ++ r.text, r.params, r.ctr)
  selectTail st1 ob lim off

/-- The four mutable fields a Query accumulates before compiling. -/
structure QueryState where
  model : PyModel
  whereE : Option Expr
  order_by : Option (List (List Char × List Char))
  limit : Option Int
  offset : Option Int

/-- query.Query.filter applied once per listed predicate, in call order. -/
def applyFilters (q : Option Expr) (es : List Expr) : Option Expr :=
  es.foldl
    (fun w e =>
      match w with
      | none => some e
      | some w0 => some (Expr.bin w0 (("AND").toList) e))
    q

/-- query.Query.all: compile with the accumulated state on a fresh Compiler. -/
def Query.all_sql (q : QueryState) : List Char × List (List Char × Value) :=
  Compiler.select q.model q.whereE q.order_by q.limit q.offset

/-- query.Query.count: compiles the SELECT with limit/offset passed as None,
then wraps it under a row count. -/
def Query.count (q : QueryState) : List Char × List (List Char × Value) :=
  let r := Compiler.select q.model q.whereE q.order_by none none
  ((("SELECT count() FROM (").toList) ++ r.1 ++ ((") AS \"sub\"").toList), r.2)

/-- Modelled from the spec: the Column Type tagged union of types.py (absent from src/),
with the leaf and wrapper constructors named by the spec's type-declaration grammar;
equality is structural, as the spec's round-trip property reads types by value. -/
inductive CHTy where
  | int8 | int16 | int32 | int64
  | uint8 | uint16 | uint32 | uint64
  | float32 | float64
  | string
  | uuid
  | bool
  | date | date32 | datetime
  | decimal (p s : Nat)
  | fixedString (n : Nat)
  | datetime64 (p : Nat)
  | nullable (inner : CHTy)
  | array (inner : CHTy)
  | lowCardinality (inner : CHTy)
deriving DecidableEq

/-- The `Union[CHType, str]` argument ddl._render_type accepts. -/
inductive RType where
  | raw (s : List Char)
  | ty (t : CHTy)
deriving DecidableEq

/-- ddl._render_type restricted to CHType values (the isinstance chain). -/
def renderTy : CHTy → List Char
  | .int8 => ("Int8").toList
  | .int16 => ("Int16").toList
  | .int32 => ("Int32").toList
  | .int64 => ("Int64").toList
  | .uint8 => ("UInt8").toList
  | .uint16 => ("UInt16").toList
  | .uint32 => ("UInt32").toList
  | .uint64 => ("UInt64").toList
  | .float32 => ("Float32").toList
  | .float64 => ("Float64").toList
  | .string => ("String").toList
  | .uuid => ("UUID").toList
  | .bool => ("Bool").toList
  | .date => ("Date").toList
  | .date32 => ("Date32").toList
  | .datetime => ("DateTime").toList
  | .decimal p s => ("Decimal(").toList ++ decRepr p ++ ',' :: decRepr s ++ [')']
  | .fixedString n => ("FixedString(").toList ++ decRepr n ++ [')']
  | .datetime64 p => ("DateTime64(").toList ++ decRepr p ++ [')']
  | .nullable t => ("Nullable(").toList ++ renderTy t ++ [')']
  | .array t => ("Array(").toList ++ renderTy t ++ [')']
  | .lowCardinality t => ("LowCardinality(").toList ++ renderTy t ++ [')']

/-- ddl._render_type: a str argument is returned verbatim, a CHType is rendered. -/
def _render_type : RType → List Char
  | .raw s => s
  | .ty t => renderTy t

/-- Case-insensitive literal-prefix match (the fixed keyword part of each regex);
returns the remainder on success. -/
def dropPrefCI : List Char → List Char → Option (List Char)
  | s, [] => some s
  | [], _ :: _ => none
  | c :: s, k :: ks => if lowerC c = k then dropPrefCI s ks else none

/-- The three wrapper keywords of engine._RE_WRAP1. -/
inductive Wrap where
  | nullable | array | lowcardinality
deriving DecidableEq

/-- The `(nullable|array|lowcardinality)` alternation (first letters are distinct,
so the regex alternation commits on the keyword). -/
def matchWrapKw (s : List Char) : Option (Wrap × List Char) :=
  match dropPrefCI s (("nullable").toList) with
  | some r => some (.nullable, r)
  | none =>
    match dropPrefCI s (("array").toList) with
    | some r => some (.array, r)
    | none =>
      match dropPrefCI s (("lowcardinality").toList) with
      | some r => some (.lowcardinality, r)
      | none => none

/-- engine._RE_WRAP1.match on the stripped input: `^kw\s*\((.*)\)$` where `.` does not
match a newline and `$` is end-of-string (the input is stripped, so no trailing
newline remains for `$` to sit before). Returns the wrapper and group(2). -/
def matchWrap (s : List Char) : Option (Wrap × List Char) :=
  match matchWrapKw s with
  | none => none
  | some (w, r1) =>
    match r1.dropWhile isPySpace with
    | '(' :: rest =>
      match rest.getLast? with
      | some ')' =>
          let inner := rest.dropLast
          if inner.contains '\n' then none else some (w, inner)
      | _ => none
    | _ => none

/-- A one-numeric-argument grammar `^kw\s*\(\s*(\d+)\s*\)\s*$` (engine._RE_FIXED and
engine._RE_DT64, with `kw` the keyword). -/
def matchNumArg (kw : List Char) (s : List Char) : Option Nat :=
  match dropPrefCI s kw with
  | none => none
  | some r =>
    match r.dropWhile isPySpace with
    | '(' :: r2 =>
      let r3 := r2.dropWhile isPySpace
      let ds := r3.takeWhile Char.isDigit
      let r4 := r3.dropWhile Char.isDigit
      if ds = [] then none
      else
        match r4.dropWhile isPySpace with
        | ')' :: r6 => if r6.dropWhile isPySpace = [] then some (valD ds) else none
        | _ => none
    | _ => none

/-- engine._RE_DECIMAL: `^decimal\s*\(\s*(\d+)\s*,\s*(\d+)\s*\)\s*$`. -/
def matchDecimal (s : List Char) : Option (Nat × Nat) :=
  match dropPrefCI s (("decimal").toList) with
  | none => none
  | some r =>
    match r.dropWhile isPySpace with
    | '(' :: r2 =>
      let r3 := r2.dropWhile isPySpace
      let ds := r3.takeWhile Char.isDigit
      let r4 := r3.dropWhile Char.isDigit
      if ds = [] then none
      else
        match r4.dropWhile isPySpace with
        | ',' :: r5 =>
          let r6 := r5.dropWhile isPySpace
          let ds2 := r6.takeWhile Char.isDigit
          let r7 := r6.dropWhile Char.isDigit
          if ds2 = [] then none
          else
            match r7.dropWhile isPySpace with
            | ')' :: r8 => if r8.dropWhile isPySpace = [] then some (valD ds, valD ds2) else none
            | _ => none
        | _ => none
    | _ => none

/-- engine._SIMPLE_MAP. -/
def _SIMPLE_MAP : List (List Char × CHTy) :=
  [(("int8").toList, .int8), (("int16").toList, .int16),
   (("int32").toList, .int32), (("int64").toList, .int64),
   (("uint8").toList, .uint8), (("uint16").toList, .uint16),
   (("uint32").toList, .uint32), (("uint64").toList, .uint64),
   (("float32").toList, .float32), (("float64").toList, .float64),
   (("string").toList, .string),
   (("uuid").toList, .uuid),
   (("bool").toList, .bool),
   (("boolean").toList, .bool),
   (("date").toList, .date),
   (("date32").toList, .date32),
   (("datetime").toList, .datetime)]

/-- Association-list lookup with list-of-char keys. -/
def lookupT : List (List Char × CHTy) → List Char → Option CHTy
  | [], _ => none
  | (k, v) :: rest, key => if key = k then some v else lookupT rest key

/-- The first whitespace-delimited token of key.split(), `none` when split()
yields an empty list (Python raises IndexError indexing it with 0). -/
def firstTok (l : List Char) : Option (List Char) :=
  match l.dropWhile isPySpace with
  | [] => none
  | r => some (r.takeWhile (fun c => !isPySpace c))

/-- The non-recursive tail of engine._parse_ch_type: the Decimal / FixedString /
DateTime64 grammars in source order, then the lowered first token against
_SIMPLE_MAP, with the String() fallback; `none` models the IndexError raised by
`key.split()[0]` on empty/whitespace-only input. -/
def leafParse (s : List Char) : Option CHTy :=
  match matchDecimal s with
  | some ps => some (.decimal ps.1 ps.2)
  | none =>
    match matchNumArg (("fixedstring").toList) s with
    | some n => some (.fixedString n)
    | none =>
      match matchNumArg (("datetime64").toList) s with
      | some p => some (.datetime64 p)
      | none =>
        match firstTok (lowerL s) with
        | none => none
        | some k =>
          match lookupT _SIMPLE_MAP k with
          | some ty => some ty
          | none => some .string

/-- engine._parse_ch_type with explicit fuel (the recursion strictly shrinks the
string, so `length + 1` fuel always suffices); structural so it reduces in the kernel. -/
def parseChF : Nat → List Char → Option CHTy
  | 0, _ => none
  | fuel + 1, t =>
    let s := pyStrip t
    match matchWrap s with
    | some (w, innerRaw) =>
      match parseChF fuel innerRaw with
      | none => none
      | some inner =>
        some (match w with
          | .nullable => .nullable inner
          | .array => .array inner
          | .lowcardinality => .lowCardinality inner)
    | none => leafParse s

/-- engine._parse_ch_type; `none` models an uncaught exception. -/
def _parse_ch_type (t : List Char) : Option CHTy := parseChF (t.length + 1) t

/-- Settings values as ddl._render_settings discriminates them
(bool first — Python bool is an int subclass — then numbers, then quoted text). -/
inductive SettingVal where
  | b (v : Bool)
  | i (v : Int)
  | s (v : List Char)

/-- ddl._render_settings. -/
def _render_settings (settings : Option (List (List Char × SettingVal))) : Option (List Char) :=
  match settings with
  | none => none
  | some [] => none
  | some l =>
    some ((("SETTINGS ").toList) ++ joinCS (l.map (fun kv =>
      match kv.2 with
      | .b v => kv.1 ++ '=' :: (if v then [('1' : Char)] else [('0' : Char)])
      | .i v => kv.1 ++ '=' :: intRepr v
      | .s v => kv.1 ++ '=' :: squo :: v ++ [squo])))

/-- One secondary-index descriptor (the dict entries ddl._render_indexes reads). -/
structure IndexSpec where
  name : List Char
  expr : List Char
  typ : List Char
  granularity : Option (List Char)

/-- One INDEX clause of ddl._render_indexes. -/
def renderIndex (ix : IndexSpec) : List Char :=
  let base := ("INDEX ").toList ++ quote_ident ix.name ++ ' ' :: ix.expr
    ++ (" TYPE ").toList ++ ix.typ
  match ix.granularity with
  | some g => if g = [] then base else base ++ (" GRANULARITY ").toList ++ g
  | none => base

/-- Joining with a comma, newline and two spaces. -/
def joinCNL : List (List Char) → List Char := joinSep ((",\n  ").toList)

/-- Joining with a newline. -/
def joinNL : List (List Char) → List Char := joinSep (("\n").toList)

/-- ddl._render_indexes. -/
def _render_indexes (indexes : Option (List IndexSpec)) : Option (List Char) :=
  match indexes with
  | none => none
  | some [] => none
  | some l => some (joinCNL (l.map renderIndex))

/-- The cols_lower dict of ddl.create_table looked up at "id": the last declared
column whose lowercased name is "id", since later dict-comprehension entries
overwrite earlier ones. -/
def lastIdKey (cols : List (List Char × RType)) : Option (List Char) :=
  ((cols.map Prod.fst).filter (fun k => lowerL k == ("id").toList)).getLast?

/-- The ordering-key default of ddl.create_table: the case-insensitive "id" column
if one exists, else the first declared column (none when there are no columns). -/
def defaultOrderCol (cols : List (List Char × RType)) : Option (List Char) :=
  match lastIdKey cols with
  | some k => some k
  | none => cols.head?.map Prod.fst

/-- The `parts` list both ddl.create_table and ddl.create_table_from_model join with
newlines: clauses appear only when their argument is truthy (None and empty
strings/lists are falsy in Python). -/
def ctParts (tbl : List Char) (cols_sql : List Char) (engine : List Char)
    (ob : List (List Char)) (partition_by : Option (List Char))
    (primary_key : Option (List (List Char))) (ttl : Option (List Char))
    (ixOpt : Option (List Char)) (stOpt : Option (List Char))
    (if_not_exists : Bool) (comment : Option (List Char)) : List (List Char) :=
  [("CREATE TABLE ").toList ++ (if if_not_exists then ("IF NOT EXISTS ").toList else []) ++ tbl,
   ("(\n  ").toList ++ cols_sql]
  ++ (match ixOpt with
      | some x => if x = [] then [] else [((",\n  ").toList) ++ x]
      | none => [])
  ++ [("\n)").toList, ("ENGINE = ").toList ++ engine]
  ++ (match partition_by with
      | some p => if p = [] then [] else [("PARTITION BY ").toList ++ p]
      | none => [])
  ++ (match primary_key with
      | some l => if l = [] then [] else [("PRIMARY KEY (").toList ++ joinCS (l.map quote_ident) ++ [')']]
      | none => [])
  ++ (if ob = [] then [] else [("ORDER BY (").toList ++ joinCS (ob.map quote_ident) ++ [')']])
  ++ (match ttl with
      | some t => if t = [] then [] else [("TTL ").toList ++ t]
      | none => [])
  ++ (match stOpt with
      | some st => if st = [] then [] else [st]
      | none => [])
  ++ (match comment with
      | some c => if c = [] then [] else [("COMMENT ").toList ++ squo :: c ++ [squo]]
      | none => [])

/-- ddl.create_table (the SQL it hands to db.execute); `none` models the
StopIteration raised by `next(iter(columns.keys()))` on an empty mapping. -/
def create_table_sql (name : List Char) (columns : List (List Char × RType))
    (engine : List Char) (order_by : Option (List (List Char)))
    (partition_by : Option (List Char)) (primary_key : Option (List (List Char)))
    (ttl : Option (List Char)) (indexes : Option (List IndexSpec))
    (settings : Option (List (List Char × SettingVal)))
    (if_not_exists : Bool) (comment : Option (List Char)) : Option (List Char) :=
  let tbl := render_table_name name
  let obD : Option (List (List Char)) :=
    match order_by with
    | some l => some l
    | none =>
      match lastIdKey columns with
      | some k => some [k]
      | none => columns.head?.map (fun kv => [kv.1])
  match obD with
  | none => none
  | some ob =>
    let cols_sql := joinCNL (columns.map (fun kv => quote_ident kv.1 ++ ' ' :: _render_type kv.2))
    some (joinNL (ctParts tbl cols_sql engine ob partition_by primary_key ttl
      (_render_indexes indexes) (_render_settings settings) if_not_exists comment))

/-- The attributes ddl.create_table_from_model reads off a model class
(getattr defaults already resolved into the fields). -/
structure DModel where
  table : List Char
  columns : List (List Char × RType)
  engine : List Char
  order_by : Option (List (List Char))
  partition_by : Option (List Char)
  primary_key : Option (List (List Char))
  ttl : Option (List Char)
  settings : Option (List (List Char × SettingVal))
  indexes : Option (List IndexSpec)
  comment : Option (List Char)

/-- The parts list of ddl.create_table_from_model: same assembly as create_table,
but the ordering key is taken from `__order_by__` with no default. -/
def create_table_from_model_parts (m : DModel) (if_not_exists : Bool) : List (List Char) :=
  let cols_sql := joinCNL (m.columns.map (fun kv => quote_ident kv.1 ++ ' ' :: _render_type kv.2))
  ctParts (render_table_name m.table) cols_sql m.engine (m.order_by.getD [])
    m.partition_by m.primary_key m.ttl (_render_indexes m.indexes)
    (_render_settings m.settings) if_not_exists m.comment

/-- ddl.create_table_from_model (the SQL it hands to db.execute); never raises. -/
def create_table_from_model_sql (m : DModel) (if_not_exists : Bool) : List Char :=
  joinNL (create_table_from_model_parts m if_not_exists)

/-- insert_builder.T: an aliased source table. -/
structure T where
  alias_ : List Char
  name : List Char

/-- The accumulated builder state insert_builder.InsertBuilder.compile reads. -/
structure IBState where
  target : List Char
  sources : List T
  mapping : List (List Char × List Char)
  joins : List (List Char)
  whereF : List (List Char)
  group_by : List (List Char)
  order_by : List (List Char)

/-- The JOIN-chain loop of InsertBuilder.compile (joins consumed positionally;
a missing or empty join condition emits no ON). -/
def fromRest : List Char → List T → List (List Char) → List Char
  | acc, [], _ => acc
  | acc, s :: ss, joins =>
    let on_ := (joins.head?).getD []
    fromRest
      (acc ++ (" JOIN ").toList ++ render_table_name s.name ++ (" AS ").toList ++ s.alias_
        ++ (if on_ = [] then [] else (" ON ").toList ++ on_))
      ss (joins.drop 1)

/-- insert_builder.InsertBuilder.compile; `none` models a failed assert
(no sources, or no mapping). -/
def InsertBuilder.compile (b : IBState) : Option (List Char × List Char) :=
  match b.sources with
  | [] => none
  | s0 :: rest =>
    let from_clause := fromRest
      (render_table_name s0.name ++ (" AS ").toList ++ s0.alias_) rest b.joins
    match b.mapping with
    | [] => none
    | ms =>
      let select_clause := joinCS (ms.map (fun kv => kv.2 ++ (" AS ").toList ++ quote_ident kv.1))
      let where_clause :=
        if b.whereF = [] then [] else (" WHERE ").toList ++ joinSep ((" AND ").toList) b.whereF
      let group_clause :=
        if b.group_by = [] then [] else (" GROUP BY ").toList ++ joinCS b.group_by
      let order_clause :=
        if b.order_by = [] then [] else (" ORDER BY ").toList ++ joinCS b.order_by
      let select_sql := ("SELECT ").toList ++ select_clause ++ (" FROM ").toList ++ from_clause
        ++ where_clause ++ group_clause ++ order_clause
      let cols_quoted := joinCS ((ms.map Prod.fst).map quote_ident)
      let insert_sql := ("INSERT INTO ").toList ++ render_table_name b.target ++ (" (").toList
        ++ cols_quoted ++ (") ").toList ++ select_sql
      some (insert_sql, select_sql)

/-- States of the placeholder scanner that reads `%(name)s` fragments out of SQL text. -/
inductive ScSt where
  | out
  | sawPct
  | inName (acc : List Char)
  | sawClose (acc : List Char)

/-- One scanner step: returns the next state and an emitted placeholder name, if any. -/
def scStep : ScSt → Char → ScSt × Option (List Char)
  | .out, c => (if c = '%' then .sawPct else .out, none)
  | .sawPct, c => (if c = '(' then .inName [] else if c = '%' then .sawPct else .out, none)
  | .inName acc, c => (if c = ')' then .sawClose acc else .inName (c :: acc), none)
  | .sawClose acc, c =>
    if c = 's' then (.out, some acc.reverse)
    else (if c = '%' then .sawPct else .out, none)

/-- Run the scanner, collecting emitted names. -/
def scanAux : ScSt → List Char → List (List Char)
  | _, [] => []
  | st, c :: rest =>
    match scStep st c with
    | (st', some nm) => nm :: scanAux st' rest
    | (st', none) => scanAux st' rest

/-- The scanner's final state after a run. -/
def scRun (st : ScSt) (l : List Char) : ScSt := l.foldl (fun s c => (scStep s c).1) st

/-- All placeholder names occurring (as `%(name)s` fragments) in a piece of SQL text. -/
def scanPH (l : List Char) : List (List Char) := scanAux .out l

/-- Expression trees whose identifier/operator/raw text contains no percent
character (literal values are unconstrained). -/
def cleanE : Expr → Bool
  | .col n => !(n.contains '%')
  | .val _ => true
  | .bin l op r => cleanE l && !(op.contains '%') && cleanE r
  | .raw s => !(s.contains '%')

/-- The cleanliness hypotheses for one compiled SELECT: no percent character in
column names, the table name, ORDER BY column names and directions, or in the
identifier/operator/raw text of the filter tree. -/
def cleanSelect (model : PyModel) (w : Option Expr)
    (ob : Option (List (List Char × List Char))) : Bool :=
  model.columns.all (fun nm => !(nm.contains '%'))
  && !(model.table.contains '%')
  && (ob.getD []).all (fun cd => !(cd.1.contains '%') && !(cd.2.contains '%'))
  && (match w with | none => true | some e => cleanE e)

/-- The n successive parameter names a compilation allocates starting at counter i. -/
def pnames : Nat → Nat → List (List Char)
  | _, 0 => []
  | i, n + 1 => pname i :: pnames (i + 1) n

/-! ### Decimal rendering facts -/

theorem valD_append (l : List Char) (c : Char) :
    valD (l ++ [c]) = 10 * valD l + (c.toNat - 48) := by
  simp [valD, List.foldl_append]

theorem digitChar_toNat (n : Nat) (h : n < 10) : (Nat.digitChar n).toNat - 48 = n := by
  interval_cases n <;> decide

theorem digitChar_isDigit (n : Nat) (h : n < 10) : (Nat.digitChar n).isDigit = true := by
  interval_cases n <;> decide

theorem valD_decReprF (n : Nat) : ∀ fuel, n < fuel → valD (decReprF fuel n) = n := by
  induction n using Nat.strongRecOn with
  | _ n ih =>
    intro fuel hf
    cases fuel with
    | zero => omega
    | succ f =>
      by_cases h10 : n < 10
      · simp only [decReprF, if_pos h10]
        show 10 * 0 + ((Nat.digitChar n).toNat - 48) = n
        rw [digitChar_toNat n h10]; omega
      · simp only [decReprF, if_neg h10]
        rw [valD_append, ih (n / 10) (Nat.div_lt_self (by omega) (by omega)) f (by
          have := Nat.div_lt_self (show 0 < n by omega) (show 1 < 10 by omega); omega)]
        rw [digitChar_toNat (n % 10) (Nat.mod_lt n (by omega))]
        omega

theorem valD_decRepr (n : Nat) : valD (decRepr n) = n :=
  valD_decReprF n (n + 1) (Nat.lt_succ_self n)

theorem decRepr_injective {a b : Nat} (h : decRepr a = decRepr b) : a = b := by
  rw [← valD_decRepr a, ← valD_decRepr b, h]

theorem pname_injective {a b : Nat} (h : pname a = pname b) : a = b := by
  simp only [pname, List.cons.injEq] at h
  exact decRepr_injective h.2

theorem decReprF_ne_nil (fuel n : Nat) (h : 0 < fuel) : decReprF fuel n ≠ [] := by
  cases fuel with
  | zero => omega
  | succ f =>
    by_cases h10 : n < 10 <;> simp [decReprF, h10]

theorem decRepr_ne_nil (n : Nat) : decRepr n ≠ [] :=
  decReprF_ne_nil (n + 1) n (Nat.succ_pos n)

theorem decReprF_digits (n : Nat) :
    ∀ fuel, n < fuel → ∀ c ∈ decReprF fuel n, c.isDigit = true := by
  induction n using Nat.strongRecOn with
  | _ n ih =>
    intro fuel hf c hc
    cases fuel with
    | zero => omega
    | succ f =>
      by_cases h10 : n < 10
      · simp only [decReprF, if_pos h10, List.mem_singleton] at hc
        subst hc; exact digitChar_isDigit n h10
      · simp only [decReprF, if_neg h10, List.mem_append, List.mem_singleton] at hc
        rcases hc with hc | hc
        · exact ih (n / 10) (Nat.div_lt_self (by omega) (by omega)) f (by
            have := Nat.div_lt_self (show 0 < n by omega) (show 1 < 10 by omega); omega) c hc
        · subst hc; exact digitChar_isDigit (n % 10) (Nat.mod_lt n (by omega))

theorem decRepr_digits (n : Nat) : ∀ c ∈ decRepr n, c.isDigit = true :=
  decReprF_digits n (n + 1) (Nat.lt_succ_self n)

theorem isDigit_ne {c d : Char} (h : c.isDigit = true) (hd : d.isDigit = false) : c ≠ d := by
  intro he; subst he; rw [h] at hd; exact absurd hd (by decide)

theorem isPySpace_isDigit_false {c : Char} (h : isPySpace c = true) : c.isDigit = false := by
  simp only [isPySpace, Bool.or_eq_true, beq_iff_eq] at h
  rcases h with ((((h | h) | h) | h) | h) | h <;> subst h <;> decide

theorem isDigit_not_space {c : Char} (h : c.isDigit = true) : isPySpace c = false := by
  cases hs : isPySpace c
  · rfl
  · rw [isPySpace_isDigit_false hs] at h; exact absurd h (by decide)

/-! ### Generic list facts -/

theorem dropWhile_all_false {p : Char → Bool} {l : List Char}
    (h : ∀ c ∈ l, p c = false) : l.dropWhile p = l := by
  cases l with
  | nil => rfl
  | cons x xs => simp [List.dropWhile_cons, h x (by simp)]

theorem takeWhile_append_not {p : Char → Bool} {a : List Char} {c : Char} {b : List Char}
    (ha : ∀ x ∈ a, p x = true) (hc : p c = false) :
    (a ++ c :: b).takeWhile p = a := by
  induction a with
  | nil => simp [List.takeWhile_cons, hc]
  | cons x xs ih =>
    simp [List.takeWhile_cons, ha x (by simp), ih (fun y hy => ha y (by simp [hy]))]

theorem dropWhile_append_not {p : Char → Bool} {a : List Char} {c : Char} {b : List Char}
    (ha : ∀ x ∈ a, p x = true) (hc : p c = false) :
    (a ++ c :: b).dropWhile p = c :: b := by
  induction a with
  | nil => simp [List.dropWhile_cons, hc]
  | cons x xs ih =>
    simp [List.dropWhile_cons, ha x (by simp), ih (fun y hy => ha y (by simp [hy]))]

theorem contains_eq_false_iff (l : List Char) (c : Char) :
    (l.contains c = false) ↔ c ∉ l := by
  simp

theorem pyStrip_all_no_space {l : List Char} (h : ∀ c ∈ l, isPySpace c = false) :
    pyStrip l = l := by
  unfold pyStrip
  rw [dropWhile_all_false h, dropWhile_all_false (by
    intro c hc; exact h c (List.mem_reverse.mp hc)), List.reverse_reverse]

theorem mem_pyStrip {c : Char} {l : List Char} (h : c ∈ pyStrip l) : c ∈ l := by
  unfold pyStrip at h
  rw [List.mem_reverse] at h
  have h1 := (List.dropWhile_sublist _).subset h
  rw [List.mem_reverse] at h1
  exact (List.dropWhile_sublist (l := l) (p := isPySpace)).subset h1

theorem mem_strip_any_quotes {c : Char} {l : List Char}
    (h : c ∈ strip_any_quotes l) : c ∈ l := by
  simp only [strip_any_quotes] at h
  split at h
  · exact h
  · split at h
    · have h1 := (List.dropLast_sublist _).subset h
      have h2 := (List.drop_sublist 1 _).subset h1
      exact mem_pyStrip h2
    · exact mem_pyStrip h

theorem mem_replDQ {c : Char} {l : List Char} (h : c ∈ replDQ l) : c = '"' ∨ c ∈ l := by
  induction l with
  | nil => simp [replDQ] at h
  | cons x xs ih =>
    simp only [replDQ] at h
    split at h
    · simp only [List.mem_cons] at h
      rcases h with h | h | h
      · exact Or.inl h
      · exact Or.inl h
      · rcases ih h with h | h
        · exact Or.inl h
        · exact Or.inr (by simp [h])
    · simp only [List.mem_cons] at h
      rcases h with h | h
      · exact Or.inr (by simp [h])
      · rcases ih h with h | h
        · exact Or.inl h
        · exact Or.inr (by simp [h])

theorem mem_quote_ident {c : Char} {l : List Char} (h : c ∈ quote_ident l) :
    c = '"' ∨ c ∈ l := by
  unfold quote_ident at h
  rcases List.mem_cons.mp h with h | h
  · exact Or.inl h
  rcases List.mem_append.mp h with h | h
  · rcases mem_replDQ h with h | h
    · exact Or.inl h
    · exact Or.inr (mem_strip_any_quotes h)
  · exact Or.inl (List.mem_singleton.mp h)

theorem mem_render_table_name {c : Char} {l : List Char} (h : c ∈ render_table_name l) :
    c = '"' ∨ c = '.' ∨ c ∈ l := by
  simp only [render_table_name] at h
  split at h
  · rcases List.mem_append.mp h with h | h
    · rcases mem_quote_ident h with h | h
      · exact Or.inl h
      · exact Or.inr (Or.inr (mem_pyStrip ((List.takeWhile_sublist _).subset h)))
    · rcases List.mem_cons.mp h with h | h
      · exact Or.inr (Or.inl h)
      · rcases mem_quote_ident h with h | h
        · exact Or.inl h
        · have h1 := (List.drop_sublist 1 _).subset h
          exact Or.inr (Or.inr (mem_pyStrip ((List.dropWhile_sublist _).subset h1)))
  · rcases mem_quote_ident h with h | h
    · exact Or.inl h
    · exact Or.inr (Or.inr (mem_pyStrip h))

/-! ### Scanner facts -/

theorem scRun_cons (st : ScSt) (c : Char) (l : List Char) :
    scRun st (c :: l) = scRun (scStep st c).1 l := rfl

theorem scanAux_cons (st : ScSt) (c : Char) (l : List Char) :
    scanAux st (c :: l) =
      ((scStep st c).2.elim [] (fun nm => [nm])) ++ scanAux (scStep st c).1 l := by
  rcases h : scStep st c with ⟨st', em⟩
  cases em <;> simp [scanAux, h]

theorem scanAux_append (a b : List Char) :
    ∀ st, scanAux st (a ++ b) = scanAux st a ++ scanAux (scRun st a) b := by
  induction a with
  | nil => intro st; simp [scanAux, scRun]
  | cons c cs ih =>
    intro st
    rw [List.cons_append, scanAux_cons, scRun_cons, ih, scanAux_cons, List.append_assoc]

theorem scStep_out_not_pct {c : Char} (h : c ≠ '%') : scStep .out c = (.out, none) := by
  simp [scStep, h]

theorem scRun_out_clean {a : List Char} (h : ∀ c ∈ a, c ≠ '%') : scRun .out a = .out := by
  induction a with
  | nil => rfl
  | cons c cs ih =>
    rw [scRun_cons, scStep_out_not_pct (h c (by simp))]
    exact ih (fun x hx => h x (by simp [hx]))

theorem scanAux_out_clean {a : List Char} (h : ∀ c ∈ a, c ≠ '%') : scanAux .out a = [] := by
  induction a with
  | nil => rfl
  | cons c cs ih =>
    rw [scanAux_cons, scStep_out_not_pct (h c (by simp))]
    exact ih (fun x hx => h x (by simp [hx]))

theorem scan_clean_append {a : List Char} (h : ∀ c ∈ a, c ≠ '%') (b : List Char) :
    scanAux .out (a ++ b) = scanAux .out b := by
  rw [scanAux_append, scanAux_out_clean h, scRun_out_clean h, List.nil_append]

theorem scan_inName (nm : List Char) (hnm : ∀ c ∈ nm, c ≠ ')') :
    ∀ acc r, scanAux (.inName acc) (nm ++ ')' :: 's' :: r)
      = (nm.reverse ++ acc).reverse :: scanAux .out r := by
  induction nm with
  | nil =>
    intro acc r
    rw [List.nil_append, scanAux_cons]
    simp [scStep, scanAux_cons]
  | cons c cs ih =>
    intro acc r
    rw [List.cons_append, scanAux_cons]
    have hc : scStep (.inName acc) c = (.inName (c :: acc), none) := by
      simp [scStep, hnm c (by simp)]
    rw [hc]
    simp only [Option.elim, List.nil_append]
    rw [ih (fun x hx => hnm x (by simp [hx])) (c :: acc) r]
    simp

theorem pname_chars {c : Char} {k : Nat} (h : c ∈ pname k) : c = 'p' ∨ c.isDigit = true := by
  rcases List.mem_cons.mp h with h | h
  · exact Or.inl h
  · exact Or.inr (decRepr_digits k c h)

theorem pname_no_rparen {c : Char} {k : Nat} (h : c ∈ pname k) : c ≠ ')' := by
  rcases pname_chars h with h | h
  · subst h; decide
  · exact isDigit_ne h (by decide)

theorem pname_no_pct {c : Char} {k : Nat} (h : c ∈ pname k) : c ≠ '%' := by
  rcases pname_chars h with h | h
  · subst h; decide
  · exact isDigit_ne h (by decide)

theorem scan_ph_append (k : Nat) (r : List Char) :
    scanAux .out (phText k ++ r) = pname k :: scanAux .out r := by
  have h1 : phText k ++ r = '%' :: '(' :: (pname k ++ ')' :: 's' :: r) := by
    simp [phText]
  rw [h1, scanAux_cons]
  have h2 : scStep .out '%' = (.sawPct, none) := by simp [scStep]
  rw [h2]
  simp only [Option.elim, List.nil_append]
  rw [scanAux_cons]
  have h3 : scStep .sawPct '(' = (.inName [], none) := by simp [scStep]
  rw [h3]
  simp only [Option.elim, List.nil_append]
  rw [scan_inName (pname k) (fun x hx => pname_no_rparen hx) [] r]
  simp

/-! ### Expression-compilation facts -/

theorem to_sql_ctr (e : Expr) : ∀ i, (e.to_sql i).ctr = i + numVals e := by
  induction e with
  | col n => intro i; simp [Expr.to_sql, numVals]
  | val v => intro i; simp [Expr.to_sql, numVals]
  | raw s => intro i; simp [Expr.to_sql, numVals]
  | bin l op r ihl ihr =>
    intro i
    simp only [Expr.to_sql, numVals]
    rw [ihr, ihl]
    omega

theorem to_sql_len (e : Expr) : ∀ i, (e.to_sql i).params.length = numVals e := by
  induction e with
  | col n => intro i; simp [Expr.to_sql, numVals]
  | val v => intro i; simp [Expr.to_sql, numVals]
  | raw s => intro i; simp [Expr.to_sql, numVals]
  | bin l op r ihl ihr =>
    intro i
    simp [Expr.to_sql, numVals, ihl, ihr]

theorem pnames_append (a : Nat) : ∀ i b, pnames i a ++ pnames (i + a) b = pnames i (a + b) := by
  induction a with
  | zero => intro i b; simp [pnames]
  | succ a ih =>
    intro i b
    have h1 : a + 1 + b = (a + b) + 1 := by omega
    have h2 : i + (a + 1) = (i + 1) + a := by omega
    rw [h1]
    simp only [pnames, List.cons_append, h2]
    rw [ih (i + 1) b]

theorem to_sql_keys (e : Expr) : ∀ i, (e.to_sql i).params.map Prod.fst = pnames i (numVals e) := by
  induction e with
  | col n => intro i; simp [Expr.to_sql, numVals, pnames]
  | val v => intro i; simp [Expr.to_sql, numVals, pnames]
  | raw s => intro i; simp [Expr.to_sql, numVals, pnames]
  | bin l op r ihl ihr =>
    intro i
    simp only [Expr.to_sql, numVals, List.map_append]
    rw [ihl, ihr, to_sql_ctr l i, pnames_append]

theorem mem_pnames {x : List Char} : ∀ n i, x ∈ pnames i n → ∃ j, i ≤ j ∧ j < i + n ∧ x = pname j := by
  intro n
  induction n with
  | zero => intro i h; simp [pnames] at h
  | succ n ih =>
    intro i h
    rcases List.mem_cons.mp h with h | h
    · exact ⟨i, le_refl i, by omega, h⟩
    · rcases ih (i + 1) h with ⟨j, hj1, hj2, hj3⟩
      exact ⟨j, by omega, by omega, hj3⟩

theorem pnames_nodup : ∀ n i, (pnames i n).Nodup := by
  intro n
  induction n with
  | zero => intro i; simp [pnames]
  | succ n ih =>
    intro i
    simp only [pnames, List.nodup_cons]
    refine ⟨fun h => ?_, ih (i + 1)⟩
    rcases mem_pnames n (i + 1) h with ⟨j, hj1, _, hj3⟩
    have := pname_injective hj3
    omega

theorem to_sql_mapValues (f : Value → Value) (e : Expr) : ∀ i,
    (mapValues f e).to_sql i =
      ⟨(e.to_sql i).text, (e.to_sql i).params.map (fun kv => (kv.1, f kv.2)), (e.to_sql i).ctr⟩ := by
  induction e with
  | col n => intro i; simp [Expr.to_sql, mapValues]
  | val v => intro i; simp [Expr.to_sql, mapValues]
  | raw s => intro i; simp [Expr.to_sql, mapValues]
  | bin l op r ihl ihr =>
    intro i
    simp [Expr.to_sql, mapValues, ihl, ihr]

theorem mem_joinSep {c : Char} {sep : List Char} :
    ∀ {parts : List (List Char)}, c ∈ joinSep sep parts → c ∈ sep ∨ ∃ p ∈ parts, c ∈ p := by
  intro parts
  induction parts with
  | nil => intro h; simp [joinSep] at h
  | cons x xs ih =>
    intro h
    cases xs with
    | nil => exact Or.inr ⟨x, by simp, h⟩
    | cons y ys =>
      rcases List.mem_append.mp h with h | h
      · rcases List.mem_append.mp h with h | h
        · exact Or.inr ⟨x, by simp, h⟩
        · exact Or.inl h
      · rcases ih h with h | ⟨p, hp, hc⟩
        · exact Or.inl h
        · exact Or.inr ⟨p, by simp [hp], hc⟩

theorem scan_to_sql (e : Expr) (he : cleanE e = true) :
    ∀ i r, scanAux .out ((e.to_sql i).text ++ r)
      = (e.to_sql i).params.map Prod.fst ++ scanAux .out r := by
  induction e with
  | col n =>
    intro i r
    simp only [Expr.to_sql, List.map_nil, List.nil_append]
    refine scan_clean_append (fun c hc => ?_) r
    simp only [cleanE, Bool.not_eq_true'] at he
    rcases mem_quote_ident hc with h | h
    · subst h; decide
    · exact fun hEq => ((contains_eq_false_iff n '%').mp he) (hEq ▸ h)
  | val v =>
    intro i r
    simp only [Expr.to_sql, List.map_cons, List.map_nil]
    rw [scan_ph_append]
    rfl
  | raw s =>
    intro i r
    simp only [Expr.to_sql, List.map_nil, List.nil_append]
    refine scan_clean_append (fun c hc => ?_) r
    simp only [cleanE, Bool.not_eq_true'] at he
    exact fun hEq => ((contains_eq_false_iff s '%').mp he) (hEq ▸ hc)
  | bin l op r ihl ihr =>
    intro i cont
    simp only [cleanE, Bool.and_eq_true, Bool.not_eq_true'] at he
    obtain ⟨⟨hel, heop⟩, her⟩ := he
    simp only [Expr.to_sql]
    have hassoc :
        ('(' :: (l.to_sql i).text ++ ' ' :: op ++ ' ' :: (r.to_sql (l.to_sql i).ctr).text ++ [')']) ++ cont
        = ['('] ++ ((l.to_sql i).text ++ ((' ' :: op ++ [' ']) ++
            ((r.to_sql (l.to_sql i).ctr).text ++ ([')'] ++ cont)))) := by
      simp
    rw [hassoc]
    rw [scan_clean_append (by intro c hc; simp at hc; subst hc; decide)]
    rw [ihl (by simpa using hel)]
    rw [scan_clean_append (by
      intro c hc
      rcases List.mem_cons.mp hc with h | h
      · subst h; decide
      · rcases List.mem_append.mp h with h | h
        · exact fun hEq => ((contains_eq_false_iff op '%').mp heop) (hEq ▸ h)
        · simp at h; subst h; decide)]
    rw [ihr (by simpa using her)]
    rw [show ([')'] ++ cont) = [')'] ++ cont from rfl,
      scan_clean_append (by intro c hc; simp at hc; subst hc; decide)]
    simp

/-! ### Statement-level scanner facts -/

theorem no_pct_concrete {c : Char} {l : List Char} (hl : l.contains '%' = false)
    (h : c ∈ l) : c ≠ '%' :=
  fun hEq => (contains_eq_false_iff l '%').mp hl (hEq ▸ h)

theorem scanPH_of_cont {T : List Char} {K : List (List Char)}
    (hT : ∀ r, scanAux .out (T ++ r) = K ++ scanAux .out r) : scanPH T = K := by
  have h := hT []
  rw [List.append_nil] at h
  rw [scanPH, h]
  simp [scanAux]

theorem pnames_snoc (i n : Nat) : pnames i n ++ [pname (i + n)] = pnames i (n + 1) := by
  have h := pnames_append n i 1
  simpa [pnames] using h

theorem scan_clean_stage {T : List Char} {K : List (List Char)} {seg : List Char}
    (hT : ∀ r, scanAux .out (T ++ r) = K ++ scanAux .out r)
    (hseg : ∀ c ∈ seg, c ≠ '%') :
    ∀ r, scanAux .out ((T ++ seg) ++ r) = K ++ scanAux .out r := by
  intro r
  rw [List.append_assoc, hT, scan_clean_append hseg]

theorem scan_ph_stage {T : List Char} {K : List (List Char)} {seg : List Char} (k : Nat)
    (hT : ∀ r, scanAux .out (T ++ r) = K ++ scanAux .out r)
    (hseg : ∀ c ∈ seg, c ≠ '%') :
    ∀ r, scanAux .out ((T ++ seg ++ phText k) ++ r) = (K ++ [pname k]) ++ scanAux .out r := by
  intro r
  rw [List.append_assoc, List.append_assoc, hT, scan_clean_append hseg, scan_ph_append]
  simp

theorem selectTail2_scan_keys (s2 : List Char) (p1 : List (List Char × Value)) (i1 : Nat)
    (lim off : Option Int)
    (hT : ∀ r, scanAux .out (s2 ++ r) = pnames 0 i1 ++ scanAux .out r)
    (hK : p1.map Prod.fst = pnames 0 i1) :
    ∃ n, (selectTail2 s2 p1 i1 lim off).2.map Prod.fst = pnames 0 n
      ∧ scanPH (selectTail2 s2 p1 i1 lim off).1 = pnames 0 n := by
  have hsnoc : ∀ m, pnames 0 m ++ [pname m] = pnames 0 (m + 1) := by
    intro m
    have := pnames_snoc 0 m
    simpa using this
  rcases lim with _ | a
  · rcases off with _ | b
    · exact ⟨i1, hK, scanPH_of_cont hT⟩
    · refine ⟨i1 + 1, ?_, ?_⟩
      · simp only [selectTail2, List.map_append, hK, List.map_cons, List.map_nil]
        exact hsnoc i1
      · refine scanPH_of_cont (fun r => ?_)
        simp only [selectTail2]
        rw [scan_ph_stage i1 hT
          (fun c h => no_pct_concrete (l := (" OFFSET ").toList) (by decide) h) r, hsnoc]
  · rcases off with _ | b
    · refine ⟨i1 + 1, ?_, ?_⟩
      · simp only [selectTail2, List.map_append, hK, List.map_cons, List.map_nil]
        exact hsnoc i1
      · refine scanPH_of_cont (fun r => ?_)
        simp only [selectTail2]
        rw [scan_ph_stage i1 hT
          (fun c h => no_pct_concrete (l := (" LIMIT ").toList) (by decide) h) r, hsnoc]
    · refine ⟨i1 + 2, ?_, ?_⟩
      · simp only [selectTail2, List.map_append, hK, List.map_cons, List.map_nil,
          List.append_assoc]
        rw [← List.append_assoc, hsnoc i1, hsnoc (i1 + 1)]
      · refine scanPH_of_cont (fun r => ?_)
        simp only [selectTail2]
        have h3 := scan_ph_stage i1 hT
          (fun c h => no_pct_concrete (l := (" LIMIT ").toList) (by decide) h)
        rw [scan_ph_stage (i1 + 1) (fun r => by rw [h3 r, hsnoc])
          (fun c h => no_pct_concrete (l := (" OFFSET ").toList) (by decide) h) r, hsnoc]

theorem selectTail_scan_keys (st1 : List Char × List (List Char × Value) × Nat)
    (ob : Option (List (List Char × List Char))) (lim off : Option Int)
    (hobcl : ∀ cd ∈ ob.getD [], cd.1.contains '%' = false ∧ cd.2.contains '%' = false)
    (hT : ∀ r, scanAux .out (st1.1 ++ r) = pnames 0 st1.2.2 ++ scanAux .out r)
    (hK : st1.2.1.map Prod.fst = pnames 0 st1.2.2) :
    ∃ n, (selectTail st1 ob lim off).2.map Prod.fst = pnames 0 n
      ∧ scanPH (selectTail st1 ob lim off).1 = pnames 0 n := by
  rcases ob with _ | l
  · exact selectTail2_scan_keys st1.1 st1.2.1 st1.2.2 lim off hT hK
  · rcases l with _ | ⟨cd0, cds⟩
    · simp only [selectTail, if_pos rfl]
      exact selectTail2_scan_keys st1.1 st1.2.1 st1.2.2 lim off hT hK
    · have hobseg : ∀ c ∈ (" ORDER BY ").toList ++
          joinCS ((cd0 :: cds).map (fun cd => quote_ident cd.1 ++ ' ' :: cd.2)), c ≠ '%' := by
        intro c hcm
        rcases List.mem_append.mp hcm with h | h
        · exact no_pct_concrete (l := (" ORDER BY ").toList) (by decide) h
        · rcases mem_joinSep h with h | ⟨p, hp, hcp⟩
          · exact no_pct_concrete (l := (", ").toList) (by decide) h
          · rcases List.mem_map.mp hp with ⟨cd, hcd, rfl⟩
            have hcd' := hobcl cd (by simpa using hcd)
            rcases List.mem_append.mp hcp with h | h
            · rcases mem_quote_ident h with h | h
              · subst h; decide
              · exact fun hEq => (contains_eq_false_iff cd.1 '%').mp hcd'.1 (hEq ▸ h)
            · rcases List.mem_cons.mp h with h | h
              · subst h; decide
              · exact fun hEq => (contains_eq_false_iff cd.2 '%').mp hcd'.2 (hEq ▸ h)
      have hT2 : ∀ r, scanAux .out ((st1.1 ++ (" ORDER BY ").toList ++
          joinCS ((cd0 :: cds).map (fun cd => quote_ident cd.1 ++ ' ' :: cd.2))) ++ r)
          = pnames 0 st1.2.2 ++ scanAux .out r := by
        intro r
        have h := scan_clean_stage hT hobseg r
        simpa [List.append_assoc] using h
      simp only [selectTail, if_neg (List.cons_ne_nil cd0 cds)]
      exact selectTail2_scan_keys _ st1.2.1 st1.2.2 lim off hT2 hK

theorem select_scan_keys (model : PyModel) (w : Option Expr)
    (ob : Option (List (List Char × List Char))) (lim off : Option Int)
    (hc : cleanSelect model w ob = true) :
    ∃ n, (Compiler.select model w ob lim off).2.map Prod.fst = pnames 0 n
      ∧ scanPH (Compiler.select model w ob lim off).1 = pnames 0 n := by
  simp only [cleanSelect, Bool.and_eq_true, List.all_eq_true, Bool.not_eq_true',
    Bool.and_eq_true] at hc
  obtain ⟨⟨⟨hm, ht⟩, hob⟩, hw⟩ := hc
  have hobcl : ∀ cd ∈ ob.getD [], cd.1.contains '%' = false ∧ cd.2.contains '%' = false :=
    fun cd hcd => hob cd hcd
  have hcols : ∀ c ∈ (match model.columns with
      | [] => ("*").toList
      | l => joinCS (l.map quote_ident)), c ≠ '%' := by
    cases hmc : model.columns with
    | nil => intro c hcm; exact no_pct_concrete (by decide) hcm
    | cons x xs =>
      intro c hcm
      rcases mem_joinSep hcm with h | ⟨p, hp, hcp⟩
      · exact no_pct_concrete (l := (", ").toList) (by decide) h
      · rcases List.mem_map.mp hp with ⟨nm, hnm, rfl⟩
        rcases mem_quote_ident hcp with h | h
        · subst h; decide
        · intro hEq
          exact (contains_eq_false_iff nm '%').mp (hm nm (hmc ▸ hnm)) (hEq ▸ h)
  have htbl : ∀ c ∈ render_table_name model.table, c ≠ '%' := by
    intro c hcm
    rcases mem_render_table_name hcm with h | h | h
    · subst h; decide
    · subst h; decide
    · exact fun hEq => (contains_eq_false_iff model.table '%').mp ht (hEq ▸ h)
  have hs0 : ∀ c ∈ ("SELECT ").toList ++ (match model.columns with
      | [] => ("*").toList
      | l => joinCS (l.map quote_ident)) ++ (" FROM ").toList ++ render_table_name model.table,
      c ≠ '%' := by
    intro c hcm
    rcases List.mem_append.mp hcm with h | h
    · rcases List.mem_append.mp h with h | h
      · rcases List.mem_append.mp h with h | h
        · exact no_pct_concrete (by decide) h
        · exact hcols c h
      · exact no_pct_concrete (l := (" FROM ").toList) (by decide) h
    · exact htbl c h
  rcases w with _ | e
  · simp only [Compiler.select]
    refine selectTail_scan_keys _ ob lim off hobcl (fun r => ?_) rfl
    rw [scan_clean_append hs0]
    rfl
  · simp only [Compiler.select]
    refine selectTail_scan_keys _ ob lim off hobcl (fun r => ?_) ?_
    · simp only [to_sql_ctr e 0, Nat.zero_add]
      rw [List.append_assoc, List.append_assoc, scan_clean_append hs0,
        scan_clean_append (a := (" WHERE ").toList)
          (fun c h => no_pct_concrete (by decide) h),
        scan_to_sql e (by simpa using hw) 0 r, to_sql_keys]
    · simp only [to_sql_ctr e 0, Nat.zero_add]
      exact to_sql_keys e 0

/-! ### Value-independence of compiled text -/

theorem selectTail_congr (t : List Char) (p p' : List (List Char × Value)) (i : Nat)
    (ob : Option (List (List Char × List Char))) (lim off : Option Int)
    (hp : p.map Prod.fst = p'.map Prod.fst) :
    (selectTail (t, p, i) ob lim off).1 = (selectTail (t, p', i) ob lim off).1
    ∧ (selectTail (t, p, i) ob lim off).2.map Prod.fst
      = (selectTail (t, p', i) ob lim off).2.map Prod.fst := by
  rcases ob with _ | l <;> rcases lim with _ | a <;> rcases off with _ | b <;>
    simp [selectTail, selectTail2, hp]

theorem select_mapValues (f : Value → Value) (model : PyModel) (w : Option Expr)
    (ob : Option (List (List Char × List Char))) (lim off : Option Int) :
    (Compiler.select model (w.map (mapValues f)) ob lim off).1
      = (Compiler.select model w ob lim off).1
    ∧ (Compiler.select model (w.map (mapValues f)) ob lim off).2.map Prod.fst
      = (Compiler.select model w ob lim off).2.map Prod.fst := by
  rcases w with _ | e
  · exact ⟨rfl, rfl⟩
  · simp only [Option.map_some', Compiler.select, to_sql_mapValues f e 0]
    exact selectTail_congr _ _ _ _ ob lim off (by simp [List.map_map, Function.comp_def])

theorem select_params_noLimOff (model : PyModel) (w : Option Expr)
    (ob : Option (List (List Char × List Char))) :
    (Compiler.select model w ob none none).2
      = (match w with | none => [] | some e => (e.to_sql 0).params) := by
  rcases w with _ | e <;> simp [Compiler.select, selectTail, selectTail2]

/-! ### Filter-chain facts -/

theorem applyFilters_some (ps : List Expr) : ∀ w, applyFilters (some w) ps
    = some (ps.foldl (fun acc e => Expr.bin acc (("AND").toList) e) w) := by
  induction ps with
  | nil => intro w; rfl
  | cons q qs ih => intro w; exact ih (Expr.bin w (("AND").toList) q)

theorem applyFilters_none_cons (p : Expr) (ps : List Expr) :
    applyFilters none (p :: ps)
      = some (ps.foldl (fun acc e => Expr.bin acc (("AND").toList) e) p) :=
  applyFilters_some ps p

theorem numVals_foldl (ps : List Expr) : ∀ p,
    numVals (ps.foldl (fun acc e => Expr.bin acc (("AND").toList) e) p)
      = numVals p + (ps.map numVals).sum := by
  induction ps with
  | nil => intro p; simp
  | cons q qs ih =>
    intro p
    simp only [List.foldl_cons, List.map_cons, List.sum_cons]
    rw [ih (Expr.bin p (("AND").toList) q)]
    simp [numVals]
    omega

theorem sum_ones {ps : List Expr} (h : ps.all (fun e => numVals e == 1) = true) :
    (ps.map numVals).sum = ps.length := by
  induction ps with
  | nil => rfl
  | cons q qs ih =>
    simp only [List.all_cons, Bool.and_eq_true, beq_iff_eq] at h
    simp only [List.map_cons, List.sum_cons, List.length_cons, h.1, ih h.2]
    omega

/-! ### Claim C1 — literal values never reach the SQL text -/

/-- C1: the SQL text Compiler.select produces does not depend on the literal values
bound through ValueExpr nodes: replacing every literal value in the filter tree by
any other value yields the identical SQL text, and a parameter map with the
identical ordered key list (only the bound values differ). -/
theorem C1_literal_value_independence (f : Value → Value) (model : PyModel)
    (w : Option Expr) (ob : Option (List (List Char × List Char))) (lim off : Option Int) :
    (Compiler.select model (w.map (mapValues f)) ob lim off).1
      = (Compiler.select model w ob lim off).1
    ∧ (Compiler.select model (w.map (mapValues f)) ob lim off).2.map Prod.fst
      = (Compiler.select model w ob lim off).2.map Prod.fst :=
  select_mapValues f model w ob lim off

/-! ### Claim C4 — identifier quoting -/

theorem undouble_cons_ne {c : Char} (hc : c ≠ '"') (l : List Char) :
    undouble (c :: l) = (undouble l).map (fun r => c :: r) := by
  simp [undouble, hc]

theorem undouble_replDQ (l : List Char) : undouble (replDQ l) = some l := by
  induction l with
  | nil => rfl
  | cons c cs ih =>
    by_cases hc : c = '"'
    · subst hc
      simp only [replDQ, if_pos rfl, undouble, ih, Option.map_some']
    · simp only [replDQ, if_neg hc]
      rw [undouble_cons_ne hc, ih]
      rfl

/-- C4: quote_ident is total and always yields the stripped identifier wrapped in
exactly one pair of outer double quotes with every embedded double quote doubled:
the interior un-doubles back to exactly `strip_any_quotes name` (so no lone
double-quote characters remain inside). -/
theorem C4_quote_ident_doubles (name : List Char) :
    ∃ mid, quote_ident name = '"' :: mid ++ ['"']
      ∧ undouble mid = some (strip_any_quotes name) :=
  ⟨replDQ (strip_any_quotes name), rfl, undouble_replDQ _⟩

/-! ### Claim C5 — table-name splitting -/

/-- C5 counterexample: a name with two dots is not quoted as one single identifier;
render_table_name splits it at the first dot. -/
theorem C5_counterexample :
    render_table_name (("a.b.c").toList) ≠ quote_ident (("a.b.c").toList) := by
  decide

theorem dropWhile_eq_cons_of_mem (c : Char) :
    ∀ l : List Char, c ∈ l → ∃ rest, l.dropWhile (fun x => x ≠ c) = c :: rest := by
  intro l
  induction l with
  | nil => intro h; simp at h
  | cons x xs ih =>
    intro h
    by_cases hx : x = c
    · subst hx
      exact ⟨xs, by simp [List.dropWhile_cons]⟩
    · have hcx : c ∈ xs := by
        rcases List.mem_cons.mp h with h | h
        · exact absurd h.symm hx
        · exact h
      rcases ih hcx with ⟨rest, hrest⟩
      exact ⟨rest, by simpa [List.dropWhile_cons, hx] using hrest⟩

/-- C5 amended: a name whose stripped form contains at least one dot (not exactly
one) is split at the first dot into two independently quoted parts joined by a dot;
only dot-free names are quoted as a single identifier. -/
theorem C5_amended (name : List Char) :
    (('.') ∉ pyStrip name → render_table_name name = quote_ident (pyStrip name))
    ∧ (('.') ∈ pyStrip name → ∃ a b, pyStrip name = a ++ '.' :: b ∧ ('.') ∉ a
        ∧ render_table_name name = quote_ident a ++ '.' :: quote_ident b) := by
  constructor
  · intro h
    have hcf : (pyStrip name).contains '.' = false := (contains_eq_false_iff _ _).mpr h
    simp only [render_table_name]
    rw [hcf]
    simp
  · intro h
    have hct : (pyStrip name).contains '.' = true := by simpa using h
    rcases dropWhile_eq_cons_of_mem '.' (pyStrip name) h with ⟨rest, hrest⟩
    refine ⟨(pyStrip name).takeWhile (fun x => x ≠ '.'), rest, ?_, ?_, ?_⟩
    · conv_lhs => rw [← List.takeWhile_append_dropWhile (p := fun x => x ≠ '.')
        (l := pyStrip name)]
      rw [hrest]
    · intro hmem
      have := List.mem_takeWhile_imp hmem
      simp at this
    · simp only [render_table_name]
      rw [hct, if_pos rfl, hrest]
      rfl

/-- C5 amended witness at the compound name `db.tbl`. -/
theorem C5_amended_witness :
    ('.') ∈ pyStrip (("db.tbl").toList)
    ∧ (∃ a b, pyStrip (("db.tbl").toList) = a ++ '.' :: b ∧ ('.') ∉ a
        ∧ render_table_name (("db.tbl").toList) = quote_ident a ++ '.' :: quote_ident b) :=
  ⟨by decide, (C5_amended (("db.tbl").toList)).2 (by decide)⟩

/-! ### Claim C6 — filter chains -/

/-- C6: N chained filter calls (N ≥ 1) build the left-nested AND tree in call order,
and compiling the resulting WHERE clause (each predicate carrying exactly one
literal) yields exactly N parameter bindings, with pairwise distinct names. -/
theorem C6_filter_chain (model : PyModel) (ob : Option (List (List Char × List Char)))
    (p : Expr) (ps : List Expr)
    (h : (p :: ps).all (fun e => numVals e == 1) = true) :
    applyFilters none (p :: ps)
      = some (ps.foldl (fun acc e => Expr.bin acc (("AND").toList) e) p)
    ∧ (Compiler.select model (applyFilters none (p :: ps)) ob none none).2.length
      = ps.length + 1
    ∧ ((Compiler.select model (applyFilters none (p :: ps)) ob none none).2.map
        Prod.fst).Nodup := by
  simp only [List.all_cons, Bool.and_eq_true, beq_iff_eq] at h
  obtain ⟨hp, hps⟩ := h
  refine ⟨applyFilters_none_cons p ps, ?_, ?_⟩
  · rw [applyFilters_none_cons p ps, select_params_noLimOff]
    simp only
    rw [to_sql_len, numVals_foldl, hp, sum_ones hps]
    omega
  · rw [applyFilters_none_cons p ps, select_params_noLimOff]
    simp only
    rw [to_sql_keys]
    exact pnames_nodup _ 0

/-- C6 witness: two chained predicates, one literal each. -/
theorem C6_filter_chain_witness :
    (([Expr.bin (.col (("id").toList)) (("=").toList) (.val (.int 5)),
       Expr.bin (.col (("n").toList)) (("=").toList) (.val (.int 6))] : List Expr).all
        (fun e => numVals e == 1) = true)
    ∧ (applyFilters none [Expr.bin (.col (("id").toList)) (("=").toList) (.val (.int 5)),
         Expr.bin (.col (("n").toList)) (("=").toList) (.val (.int 6))]
        = some ([Expr.bin (.col (("n").toList)) (("=").toList) (.val (.int 6))].foldl
            (fun acc e => Expr.bin acc (("AND").toList) e)
            (Expr.bin (.col (("id").toList)) (("=").toList) (.val (.int 5))))
      ∧ (Compiler.select ⟨[("id").toList], ("t").toList⟩
          (applyFilters none [Expr.bin (.col (("id").toList)) (("=").toList) (.val (.int 5)),
            Expr.bin (.col (("n").toList)) (("=").toList) (.val (.int 6))])
          none none none).2.length
        = ([Expr.bin (.col (("n").toList)) (("=").toList) (.val (.int 6))] : List Expr).length + 1
      ∧ ((Compiler.select ⟨[("id").toList], ("t").toList⟩
          (applyFilters none [Expr.bin (.col (("id").toList)) (("=").toList) (.val (.int 5)),
            Expr.bin (.col (("n").toList)) (("=").toList) (.val (.int 6))])
          none none none).2.map Prod.fst).Nodup) :=
  ⟨by decide,
   C6_filter_chain ⟨[("id").toList], ("t").toList⟩ none
     (Expr.bin (.col (("id").toList)) (("=").toList) (.val (.int 5)))
     [Expr.bin (.col (("n").toList)) (("=").toList) (.val (.int 6))] (by decide)⟩

/-! ### Claim C7 — COUNT wrapping -/

/-- C7 counterexample: with a LIMIT set on the query, Query.count does not wrap the
text steps 1-5 would produce for that query (its LIMIT clause is dropped). -/
theorem C7_counterexample :
    (Query.count ⟨⟨[("id").toList], ("t").toList⟩, none, none, some 5, none⟩).1
      ≠ ("SELECT count() FROM (").toList
        ++ (Compiler.select ⟨[("id").toList], ("t").toList⟩ none none (some 5) none).1
        ++ (") AS \"sub\"").toList := by
  decide

/-- C7 amended: Query.count ignores the query's limit and offset; it wraps the
SELECT compiled from the same filter tree and ordering with limit/offset passed as
None, and returns that compilation's parameter map unchanged. -/
theorem C7_amended (q : QueryState) :
    Query.count q = Query.count ⟨q.model, q.whereE, q.order_by, none, none⟩
    ∧ (Query.count q).1 = ("SELECT count() FROM (").toList
        ++ (Compiler.select q.model q.whereE q.order_by none none).1
        ++ (") AS \"sub\"").toList
    ∧ (Query.count q).2 = (Compiler.select q.model q.whereE q.order_by none none).2 :=
  ⟨rfl, rfl, rfl⟩

/-! ### Claim C9 — empty-columns DDL and empty-sources builder -/

/-- C9 counterexample: with an explicit ordering key, create_table on an empty
column mapping does not raise; it silently returns a CREATE TABLE statement with an
empty column list. -/
theorem C9_counterexample :
    (create_table_sql (("t").toList) [] (("MergeTree").toList) (some [("x").toList])
      none none none none none true none).isSome = true := by
  decide

/-- C9 amended: create_table with an empty column mapping raises only when no
ordering key is supplied (the default-ordering lookup fails); with an ordering key
it silently produces SQL with an empty column list. InsertBuilder.compile with no
sources always raises. -/
theorem C9_amended :
    (∀ name engine partition_by primary_key ttl indexes settings ine comment,
      create_table_sql name [] engine none partition_by primary_key ttl indexes
        settings ine comment = none)
    ∧ (∀ b : IBState, b.sources = [] → InsertBuilder.compile b = none) := by
  constructor
  · intro name engine pb pk ttl ix st ine comment
    rfl
  · intro b hb
    unfold InsertBuilder.compile
    rw [hb]

/-- C9 amended witness: a builder with no sources, and the empty-columns
create_table with no ordering key. -/
theorem C9_amended_witness :
    (⟨("t").toList, [], [], [], [], [], []⟩ : IBState).sources = []
    ∧ InsertBuilder.compile (⟨("t").toList, [], [], [], [], [], []⟩ : IBState) = none
    ∧ create_table_sql (("t").toList) [] (("MergeTree").toList) none
        none none none none none true none = none :=
  ⟨rfl,
   C9_amended.2 (⟨("t").toList, [], [], [], [], [], []⟩ : IBState) rfl,
   C9_amended.1 (("t").toList) (("MergeTree").toList) none none none none none true none⟩

/-! ### Claim C10 — placeholder names versus parameter keys -/

/-- C10 counterexample: a column whose name is itself placeholder-shaped text puts
a `%(p0)s` fragment into the SQL while the parameter map stays empty, so the
scanned placeholder set differs from the key set. -/
theorem C10_counterexample :
    ¬ (scanPH (Compiler.select ⟨[("%(p0)s").toList], ("t").toList⟩ none none none none).1
        = (Compiler.select ⟨[("%(p0)s").toList], ("t").toList⟩ none none none none).2.map
            Prod.fst) := by
  decide

/-- C10 amended: provided no percent character occurs in the schema's column names,
the table name, the ORDER BY column names and direction strings, or the
identifier/operator/raw text of the filter tree, the placeholder names occurring in
the compiled SELECT (scanned as `%(name)s` fragments) are exactly the parameter
map's keys in allocation order, and those names are pairwise distinct. -/
theorem C10_amended (model : PyModel) (w : Option Expr)
    (ob : Option (List (List Char × List Char))) (lim off : Option Int)
    (hc : cleanSelect model w ob = true) :
    scanPH (Compiler.select model w ob lim off).1
      = (Compiler.select model w ob lim off).2.map Prod.fst
    ∧ ((Compiler.select model w ob lim off).2.map Prod.fst).Nodup := by
  obtain ⟨n, hk, hs⟩ := select_scan_keys model w ob lim off hc
  refine ⟨hs.trans hk.symm, ?_⟩
  rw [hk]
  exact pnames_nodup n 0

/-- C10 amended witness: a clean SELECT with a one-literal WHERE, an ORDER BY,
a LIMIT and an OFFSET. -/
theorem C10_amended_witness :
    cleanSelect ⟨[("id").toList], ("t").toList⟩
      (some (.bin (.col (("id").toList)) (("=").toList) (.val (.int 5))))
      (some [((("id").toList), ("ASC").toList)]) = true
    ∧ (scanPH (Compiler.select ⟨[("id").toList], ("t").toList⟩
          (some (.bin (.col (("id").toList)) (("=").toList) (.val (.int 5))))
          (some [((("id").toList), ("ASC").toList)]) (some 10) (some 2)).1
        = (Compiler.select ⟨[("id").toList], ("t").toList⟩
            (some (.bin (.col (("id").toList)) (("=").toList) (.val (.int 5))))
            (some [((("id").toList), ("ASC").toList)]) (some 10) (some 2)).2.map Prod.fst
      ∧ ((Compiler.select ⟨[("id").toList], ("t").toList⟩
            (some (.bin (.col (("id").toList)) (("=").toList) (.val (.int 5))))
            (some [((("id").toList), ("ASC").toList)]) (some 10) (some 2)).2.map
              Prod.fst).Nodup) :=
  ⟨by decide,
   C10_amended ⟨[("id").toList], ("t").toList⟩
     (some (.bin (.col (("id").toList)) (("=").toList) (.val (.int 5))))
     (some [((("id").toList), ("ASC").toList)]) (some 10) (some 2) (by decide)⟩

/-! ### Claim C8 — ORDER BY defaults in the DDL renderer -/

theorem mem_infix_joinSep {p : List Char} {sep : List Char} :
    ∀ parts, p ∈ parts → p <:+: joinSep sep parts := by
  intro parts
  induction parts with
  | nil => intro h; simp at h
  | cons x xs ih =>
    intro h
    rcases List.mem_cons.mp h with h | h
    · subst h
      cases xs with
      | nil => exact List.infix_refl p
      | cons y ys =>
        show p <:+: p ++ sep ++ joinSep sep (y :: ys)
        rw [List.append_assoc]
        exact (List.prefix_append p _).isInfix
    · cases xs with
      | nil => simp at h
      | cons y ys =>
        have hi := ih h
        show p <:+: x ++ sep ++ joinSep sep (y :: ys)
        exact hi.trans ((List.suffix_append (x ++ sep) _).isInfix)

theorem not_prefix_of_head_ne {p k : List Char} {c : Char}
    (hk : k.head? = some c) (h : p.head? ≠ some c) : ¬ (k <+: p) := by
  intro hp
  rcases hp with ⟨t, ht⟩
  apply h
  rw [← ht]
  cases k with
  | nil => simp at hk
  | cons a b => simpa using hk

theorem render_settings_head {st : Option (List (List Char × SettingVal))} {x : List Char}
    (h : _render_settings st = some x) : x.head? = some 'S' := by
  rcases st with _ | l
  · simp [_render_settings] at h
  · rcases l with _ | ⟨kv, kvs⟩
    · simp [_render_settings] at h
    · simp only [_render_settings] at h
      injection h with h
      rw [← h]
      rfl

theorem mem_opt_seg {p : List Char} {o : Option (List Char)} {f : List Char → List Char}
    (hp : p ∈ (match o with
      | some v => if v = [] then [] else [f v]
      | none => ([] : List (List Char)))) :
    ∃ v, o = some v ∧ p = f v := by
  rcases o with _ | v
  · simp at hp
  · by_cases hv : v = []
    · simp [hv] at hp
    · simp only [if_neg hv] at hp
      exact ⟨v, rfl, by simpa using hp⟩

theorem mem_ctParts_head {p : List Char} (tbl cols_sql engine : List Char)
    (ob : List (List Char)) (pb : Option (List Char)) (pk : Option (List (List Char)))
    (ttl : Option (List Char)) (ixOpt stOpt : Option (List Char)) (ine : Bool)
    (comment : Option (List Char))
    (hp : p ∈ ctParts tbl cols_sql engine ob pb pk ttl ixOpt stOpt ine comment) :
    p.head? = some 'C' ∨ p.head? = some '(' ∨ p.head? = some ','
    ∨ p.head? = some '\n' ∨ p.head? = some 'E' ∨ p.head? = some 'P'
    ∨ p.head? = some 'T'
    ∨ (∃ x, stOpt = some x ∧ p = x)
    ∨ (ob ≠ [] ∧ p = ("ORDER BY (").toList ++ joinCS (ob.map quote_ident) ++ [')']) := by
  simp only [ctParts, List.mem_append] at hp
  rcases hp with ((((((((h | h) | h) | h) | h) | h) | h) | h) | h)
  · rcases List.mem_cons.mp h with h | h
    · subst h
      exact Or.inl rfl
    · rcases List.mem_cons.mp h with h | h
      · subst h
        exact Or.inr (Or.inl rfl)
      · simp at h
  · rcases mem_opt_seg h with ⟨v, _, rfl⟩
    exact Or.inr (Or.inr (Or.inl rfl))
  · rcases List.mem_cons.mp h with h | h
    · subst h
      exact Or.inr (Or.inr (Or.inr (Or.inl rfl)))
    · rcases List.mem_cons.mp h with h | h
      · subst h
        exact Or.inr (Or.inr (Or.inr (Or.inr (Or.inl rfl))))
      · simp at h
  · rcases mem_opt_seg h with ⟨v, _, rfl⟩
    exact Or.inr (Or.inr (Or.inr (Or.inr (Or.inr (Or.inl rfl)))))
  · rcases pk with _ | v
    · simp at h
    · by_cases hv : v = []
      · simp [hv] at h
      · simp only [if_neg hv] at h
        have := List.mem_singleton.mp h
        subst this
        exact Or.inr (Or.inr (Or.inr (Or.inr (Or.inr (Or.inl rfl)))))
  · by_cases hob : ob = []
    · simp [hob] at h
    · simp only [if_neg hob] at h
      have := List.mem_singleton.mp h
      subst this
      exact Or.inr (Or.inr (Or.inr (Or.inr (Or.inr (Or.inr (Or.inr (Or.inr ⟨hob, rfl⟩)))))))
  · rcases mem_opt_seg h with ⟨v, _, rfl⟩
    exact Or.inr (Or.inr (Or.inr (Or.inr (Or.inr (Or.inr (Or.inl rfl))))))
  · rcases stOpt with _ | v
    · simp at h
    · by_cases hv : v = []
      · simp [hv] at h
      · simp only [if_neg hv] at h
        have := List.mem_singleton.mp h
        subst this
        exact Or.inr (Or.inr (Or.inr (Or.inr (Or.inr (Or.inr (Or.inr (Or.inl ⟨_, rfl, rfl⟩)))))))
  · rcases comment with _ | v
    · simp at h
    · by_cases hv : v = []
      · simp [hv] at h
      · simp only [if_neg hv] at h
        have := List.mem_singleton.mp h
        subst this
        exact Or.inl rfl

/-- C8 counterexample: create_table_from_model applies no ordering-key default;
with no `__order_by__` declared, the rendered statement contains no ORDER BY
clause at all (here: one column `x`, so the claim demands ORDER BY ("x")). -/
theorem C8_counterexample :
    ¬ ((("ORDER BY").toList) <:+:
      create_table_from_model_sql
        ⟨("t").toList, [(("x").toList, RType.ty CHTy.int8)], ("MergeTree").toList,
          none, none, none, none, none, none, none⟩ true) := by
  decide

/-- C8 amended: only the explicit column-mapping entry point (create_table) defaults
the ordering key when unspecified — to the last column whose name lowercases to
"id" if one exists, else the first declared column — and its rendered statement
then contains the ORDER BY clause over that column. create_table_from_model applies
no default: with no declared ordering, no part of its statement is an ORDER BY
clause. -/
theorem C8_amended :
    (∀ name columns engine partition_by primary_key ttl indexes settings ine comment,
        columns ≠ [] →
        ∃ d sql, defaultOrderCol columns = some d
          ∧ create_table_sql name columns engine none partition_by primary_key ttl
              indexes settings ine comment = some sql
          ∧ ((("ORDER BY (").toList ++ quote_ident d ++ [')']) <:+: sql))
    ∧ (∀ (m : DModel) (ine : Bool), m.order_by = none →
        ∀ p ∈ create_table_from_model_parts m ine, ¬ (("ORDER BY").toList <+: p)) := by
  constructor
  · intro name columns engine pb pk ttl ix st ine comment hne
    have hob : ∃ d, defaultOrderCol columns = some d ∧
        (match lastIdKey columns with
          | some k => some [k]
          | none => columns.head?.map (fun kv => [kv.1])) = some [d] := by
      rcases hid : lastIdKey columns with _ | k
      · rcases columns with _ | ⟨c0, cs⟩
        · exact absurd rfl hne
        · exact ⟨c0.1, by simp [defaultOrderCol, hid], by simp⟩
      · exact ⟨k, by simp [defaultOrderCol, hid], by simp⟩
    rcases hob with ⟨d, hd, hmatch⟩
    refine ⟨d, joinNL (ctParts (render_table_name name)
        (joinCNL (columns.map (fun kv => quote_ident kv.1 ++ ' ' :: _render_type kv.2)))
        engine [d] pb pk ttl (_render_indexes ix) (_render_settings st) ine comment),
      hd, ?_, ?_⟩
    · simp only [create_table_sql, hmatch]
    · apply mem_infix_joinSep
      have hjoin : joinCS ([d].map quote_ident) = quote_ident d := rfl
      simp only [ctParts, List.mem_append]
      refine Or.inl (Or.inl (Or.inl (Or.inr ?_)))
      rw [if_neg (by simp)]
      simp only [List.mem_singleton, List.map_cons, List.map_nil]
      rfl
  · intro m ine hob p hp
    simp only [create_table_from_model_parts, hob, Option.getD_none] at hp
    rcases mem_ctParts_head _ _ _ _ _ _ _ _ _ _ _ hp with
      h | h | h | h | h | h | h | ⟨x, hx, rfl⟩ | ⟨hne, _⟩
    · exact not_prefix_of_head_ne rfl (by rw [h]; decide)
    · exact not_prefix_of_head_ne rfl (by rw [h]; decide)
    · exact not_prefix_of_head_ne rfl (by rw [h]; decide)
    · exact not_prefix_of_head_ne rfl (by rw [h]; decide)
    · exact not_prefix_of_head_ne rfl (by rw [h]; decide)
    · exact not_prefix_of_head_ne rfl (by rw [h]; decide)
    · exact not_prefix_of_head_ne rfl (by rw [h]; decide)
    · exact not_prefix_of_head_ne rfl (by rw [render_settings_head hx]; decide)
    · exact absurd rfl hne

/-- C8 amended witness: the default fires for create_table on a one-column mapping,
and a concrete part of a default-free model statement is not an ORDER BY clause. -/
theorem C8_amended_witness :
    ([(("id").toList, RType.ty CHTy.uint64)] ≠ ([] : List (List Char × RType)))
    ∧ (∃ d sql, defaultOrderCol [(("id").toList, RType.ty CHTy.uint64)] = some d
        ∧ create_table_sql (("t").toList) [(("id").toList, RType.ty CHTy.uint64)]
            (("MergeTree").toList) none none none none none none true none = some sql
        ∧ ((("ORDER BY (").toList ++ quote_ident d ++ [')']) <:+: sql))
    ∧ ((⟨("t").toList, [(("x").toList, RType.ty CHTy.int8)], ("MergeTree").toList,
          none, none, none, none, none, none, none⟩ : DModel).order_by = none)
    ∧ (("\n)").toList ∈ create_table_from_model_parts
        ⟨("t").toList, [(("x").toList, RType.ty CHTy.int8)], ("MergeTree").toList,
          none, none, none, none, none, none, none⟩ true)
    ∧ ¬ (("ORDER BY").toList <+: ("\n)").toList) :=
  ⟨by decide,
   C8_amended.1 (("t").toList) [(("id").toList, RType.ty CHTy.uint64)]
     (("MergeTree").toList) none none none none none true none (by decide),
   rfl,
   by decide,
   C8_amended.2
     ⟨("t").toList, [(("x").toList, RType.ty CHTy.int8)], ("MergeTree").toList,
       none, none, none, none, none, none, none⟩ true rfl (("\n)").toList) (by decide)⟩

/-! ### Claims C2/C3 — the type round trip and the parser's raise -/

theorem no_space_concrete {c : Char} {l : List Char}
    (hl : l.all (fun x => !isPySpace x) = true) (h : c ∈ l) : isPySpace c = false := by
  have := List.all_eq_true.mp hl c h
  simpa using this

theorem render_no_space (t : CHTy) : ∀ c ∈ renderTy t, isPySpace c = false := by
  induction t with
  | decimal p q =>
    intro c hc
    simp only [renderTy] at hc
    rcases List.mem_append.mp hc with h | h
    · rcases List.mem_append.mp h with h | h
      · rcases List.mem_append.mp h with h | h
        · exact no_space_concrete (by decide) h
        · exact isDigit_not_space (decRepr_digits p c h)
      · rcases List.mem_cons.mp h with h | h
        · subst h; decide
        · exact isDigit_not_space (decRepr_digits q c h)
    · simp only [List.mem_singleton] at h; subst h; decide
  | fixedString n =>
    intro c hc
    simp only [renderTy] at hc
    rcases List.mem_append.mp hc with h | h
    · rcases List.mem_append.mp h with h | h
      · exact no_space_concrete (by decide) h
      · exact isDigit_not_space (decRepr_digits n c h)
    · simp only [List.mem_singleton] at h; subst h; decide
  | datetime64 p =>
    intro c hc
    simp only [renderTy] at hc
    rcases List.mem_append.mp hc with h | h
    · rcases List.mem_append.mp h with h | h
      · exact no_space_concrete (by decide) h
      · exact isDigit_not_space (decRepr_digits p c h)
    · simp only [List.mem_singleton] at h; subst h; decide
  | nullable inner ih =>
    intro c hc
    simp only [renderTy] at hc
    rcases List.mem_append.mp hc with h | h
    · rcases List.mem_append.mp h with h | h
      · exact no_space_concrete (by decide) h
      · exact ih c h
    · simp only [List.mem_singleton] at h; subst h; decide
  | array inner ih =>
    intro c hc
    simp only [renderTy] at hc
    rcases List.mem_append.mp hc with h | h
    · rcases List.mem_append.mp h with h | h
      · exact no_space_concrete (by decide) h
      · exact ih c h
    · simp only [List.mem_singleton] at h; subst h; decide
  | lowCardinality inner ih =>
    intro c hc
    simp only [renderTy] at hc
    rcases List.mem_append.mp hc with h | h
    · rcases List.mem_append.mp h with h | h
      · exact no_space_concrete (by decide) h
      · exact ih c h
    · simp only [List.mem_singleton] at h; subst h; decide
  | _ =>
    intro c hc
    exact no_space_concrete (by decide) hc

theorem render_no_newline (t : CHTy) : (renderTy t).contains '\n' = false := by
  rw [contains_eq_false_iff]
  intro h
  exact absurd (render_no_space t '\n' h) (by decide)

theorem pyStrip_render (t : CHTy) : pyStrip (renderTy t) = renderTy t :=
  pyStrip_all_no_space (render_no_space t)

theorem dropPrefCI_append {s k : List Char} (r : List Char) (h : lowerL s = k) :
    dropPrefCI (s ++ r) k = some r := by
  induction s generalizing k with
  | nil => subst h; simp [lowerL, dropPrefCI]
  | cons c cs ih =>
    subst h
    rw [show lowerL (c :: cs) = lowerC c :: lowerL cs from rfl, List.cons_append]
    simp only [dropPrefCI, if_true]
    exact ih rfl

theorem dropPrefCI_cons_none {c kc : Char} {s k ks : List Char}
    (hkk : k = kc :: ks) (h : lowerC c ≠ kc) : dropPrefCI (c :: s) k = none := by
  subst hkk
  simp [dropPrefCI, h]

theorem matchWrapKw_none_head {c : Char} {s : List Char}
    (h1 : lowerC c ≠ 'n') (h2 : lowerC c ≠ 'a') (h3 : lowerC c ≠ 'l') :
    matchWrapKw (c :: s) = none := by
  unfold matchWrapKw
  rw [dropPrefCI_cons_none (show ("nullable").toList = 'n' :: ("ullable").toList by decide) h1,
    dropPrefCI_cons_none (show ("array").toList = 'a' :: ("rray").toList by decide) h2,
    dropPrefCI_cons_none
      (show ("lowcardinality").toList = 'l' :: ("owcardinality").toList by decide) h3]

theorem matchWrap_none_of_kw {s : List Char} (h : matchWrapKw s = none) :
    matchWrap s = none := by
  unfold matchWrap
  rw [h]

theorem matchWrapKw_nullable (r : List Char) :
    matchWrapKw (("Nullable").toList ++ r) = some (.nullable, r) := by
  unfold matchWrapKw
  rw [dropPrefCI_append r (by decide)]

theorem matchWrapKw_array (r : List Char) :
    matchWrapKw (("Array").toList ++ r) = some (.array, r) := by
  unfold matchWrapKw
  rw [show ("Array").toList = 'A' :: ("rray").toList by decide, List.cons_append,
    dropPrefCI_cons_none (show ("nullable").toList = 'n' :: ("ullable").toList by decide)
      (by decide),
    ← List.cons_append, ← show ("Array").toList = 'A' :: ("rray").toList by decide,
    dropPrefCI_append r (by decide)]

theorem matchWrapKw_lowcard (r : List Char) :
    matchWrapKw (("LowCardinality").toList ++ r) = some (.lowcardinality, r) := by
  unfold matchWrapKw
  rw [show ("LowCardinality").toList = 'L' :: ("owCardinality").toList by decide,
    List.cons_append,
    dropPrefCI_cons_none (show ("nullable").toList = 'n' :: ("ullable").toList by decide)
      (by decide),
    dropPrefCI_cons_none (show ("array").toList = 'a' :: ("rray").toList by decide)
      (by decide),
    ← List.cons_append, ← show ("LowCardinality").toList = 'L' :: ("owCardinality").toList
      by decide,
    dropPrefCI_append r (by decide)]

theorem matchWrap_of_kw {s : List Char} {w : Wrap} {inner : List Char}
    (hkw : matchWrapKw s = some (w, '(' :: inner ++ [')']))
    (hnl : inner.contains '\n' = false) :
    matchWrap s = some (w, inner) := by
  unfold matchWrap
  rw [hkw]
  have hdw : ('(' :: inner ++ [')']).dropWhile isPySpace = '(' :: (inner ++ [')']) := by
    rw [List.cons_append, List.dropWhile_cons]
    rw [if_neg (by decide)]
  simp only [hdw, List.getLast?_concat, List.dropLast_concat, hnl]
  simp

theorem dropWhile_cons_head_false {p : Char → Bool} {c : Char} {l : List Char}
    (h : p c = false) : (c :: l).dropWhile p = c :: l := by
  simp [List.dropWhile_cons, h]

theorem dropWhile_sp_decRepr (n : Nat) (X : List Char) :
    (decRepr n ++ X).dropWhile isPySpace = decRepr n ++ X := by
  obtain ⟨c0, r0, h0⟩ := List.exists_cons_of_ne_nil (decRepr_ne_nil n)
  have hc0 : c0 ∈ decRepr n := by rw [h0]; exact List.mem_cons_self _ _
  rw [h0, List.cons_append]
  exact dropWhile_cons_head_false (isDigit_not_space (decRepr_digits n c0 hc0))

theorem takeWhile_digit_comma (n : Nat) (b : List Char) :
    (decRepr n ++ ',' :: b).takeWhile Char.isDigit = decRepr n :=
  takeWhile_append_not (decRepr_digits n) (by decide)

theorem dropWhile_digit_comma (n : Nat) (b : List Char) :
    (decRepr n ++ ',' :: b).dropWhile Char.isDigit = ',' :: b :=
  dropWhile_append_not (decRepr_digits n) (by decide)

theorem takeWhile_digit_rparen (n : Nat) (b : List Char) :
    (decRepr n ++ ')' :: b).takeWhile Char.isDigit = decRepr n :=
  takeWhile_append_not (decRepr_digits n) (by decide)

theorem dropWhile_digit_rparen (n : Nat) (b : List Char) :
    (decRepr n ++ ')' :: b).dropWhile Char.isDigit = ')' :: b :=
  dropWhile_append_not (decRepr_digits n) (by decide)

theorem decRepr_eq_nil_iff (n : Nat) : (decRepr n = []) ↔ False := by
  simp [decRepr_ne_nil n]

theorem dropWhile_sp_lparen (l : List Char) :
    ('(' :: l).dropWhile isPySpace = '(' :: l := dropWhile_cons_head_false (by decide)

theorem dropWhile_sp_comma (l : List Char) :
    (',' :: l).dropWhile isPySpace = ',' :: l := dropWhile_cons_head_false (by decide)

theorem dropWhile_sp_rparen (l : List Char) :
    (')' :: l).dropWhile isPySpace = ')' :: l := dropWhile_cons_head_false (by decide)

theorem matchDecimal_render (p q : Nat) :
    matchDecimal (("Decimal").toList ++ ('(' :: (decRepr p ++ ',' :: (decRepr q ++ [')']))))
      = some (p, q) := by
  unfold matchDecimal
  rw [dropPrefCI_append _ (by decide)]
  simp only [dropWhile_sp_lparen, dropWhile_sp_decRepr, takeWhile_digit_comma,
    dropWhile_digit_comma, decRepr_eq_nil_iff, if_false, dropWhile_sp_comma,
    takeWhile_digit_rparen, dropWhile_digit_rparen, dropWhile_sp_rparen,
    List.dropWhile_nil, valD_decRepr]
  simp

theorem matchNumArg_render {kwU kw : List Char} (hk : lowerL kwU = kw) (n : Nat) :
    matchNumArg kw (kwU ++ ('(' :: (decRepr n ++ [')']))) = some n := by
  unfold matchNumArg
  rw [dropPrefCI_append _ hk]
  simp only [dropWhile_sp_lparen, dropWhile_sp_decRepr, takeWhile_digit_rparen,
    dropWhile_digit_rparen, decRepr_eq_nil_iff, if_false, dropWhile_sp_rparen,
    List.dropWhile_nil, valD_decRepr]
  simp

theorem matchDecimal_none_of_kw {s : List Char}
    (h : dropPrefCI s (("decimal").toList) = none) : matchDecimal s = none := by
  unfold matchDecimal
  rw [h]

theorem matchNumArg_none_of_kw {kw s : List Char}
    (h : dropPrefCI s kw = none) : matchNumArg kw s = none := by
  unfold matchNumArg
  rw [h]

theorem dropPrefCI_cons2_none {c1 c2 kc1 kc2 : Char} {s k ks : List Char}
    (hkk : k = kc1 :: kc2 :: ks) (h1 : lowerC c1 = kc1) (h2 : lowerC c2 ≠ kc2) :
    dropPrefCI (c1 :: c2 :: s) k = none := by
  subst hkk
  simp [dropPrefCI, h1, h2]

theorem parseChF_not_wrap {t : List Char} {f : Nat}
    (h : matchWrap (pyStrip t) = none) :
    parseChF (f + 1) t = leafParse (pyStrip t) := by
  simp only [parseChF]
  rw [h]

theorem renderTy_decimal_shape (p q : Nat) :
    renderTy (.decimal p q)
      = ("Decimal").toList ++ ('(' :: (decRepr p ++ ',' :: (decRepr q ++ [')']))) := by
  simp only [renderTy]
  rw [show ("Decimal(").toList = ("Decimal").toList ++ ['('] from by decide]
  simp [List.append_assoc]

theorem renderTy_fixed_shape (n : Nat) :
    renderTy (.fixedString n) = ("FixedString").toList ++ ('(' :: (decRepr n ++ [')'])) := by
  simp only [renderTy]
  rw [show ("FixedString(").toList = ("FixedString").toList ++ ['('] from by decide]
  simp [List.append_assoc]

theorem renderTy_dt64_shape (n : Nat) :
    renderTy (.datetime64 n) = ("DateTime64").toList ++ ('(' :: (decRepr n ++ [')'])) := by
  simp only [renderTy]
  rw [show ("DateTime64(").toList = ("DateTime64").toList ++ ['('] from by decide]
  simp [List.append_assoc]

theorem parse_render_fuel (t : CHTy) :
    ∀ f, (renderTy t).length < f → parseChF f (renderTy t) = some t := by
  induction t with
  | decimal p q =>
    intro f hf
    cases f with
    | zero => omega
    | succ f' =>
      have hcons : renderTy (.decimal p q)
          = 'D' :: (("ecimal").toList ++ ('(' :: (decRepr p ++ ',' :: (decRepr q ++ [')'])))) := by
        rw [renderTy_decimal_shape,
          show ("Decimal").toList = 'D' :: ("ecimal").toList from by decide, List.cons_append]
      rw [parseChF_not_wrap (by
        rw [pyStrip_render, hcons]
        exact matchWrap_none_of_kw
          (matchWrapKw_none_head (by decide) (by decide) (by decide)))]
      rw [pyStrip_render]
      unfold leafParse
      rw [renderTy_decimal_shape, matchDecimal_render]
  | fixedString n =>
    intro f hf
    cases f with
    | zero => omega
    | succ f' =>
      have hcons : renderTy (.fixedString n)
          = 'F' :: (("ixedString").toList ++ ('(' :: (decRepr n ++ [')']))) := by
        rw [renderTy_fixed_shape,
          show ("FixedString").toList = 'F' :: ("ixedString").toList from by decide,
          List.cons_append]
      rw [parseChF_not_wrap (by
        rw [pyStrip_render, hcons]
        exact matchWrap_none_of_kw
          (matchWrapKw_none_head (by decide) (by decide) (by decide)))]
      rw [pyStrip_render]
      unfold leafParse
      rw [show matchDecimal (renderTy (.fixedString n)) = none from by
        rw [hcons]
        exact matchDecimal_none_of_kw (dropPrefCI_cons_none
          (show ("decimal").toList = 'd' :: ("ecimal").toList from by decide) (by decide))]
      rw [renderTy_fixed_shape, matchNumArg_render (by decide)]
  | datetime64 n =>
    intro f hf
    cases f with
    | zero => omega
    | succ f' =>
      have hcons : renderTy (.datetime64 n)
          = 'D' :: ('a' :: (("teTime64").toList ++ ('(' :: (decRepr n ++ [')'])))) := by
        rw [renderTy_dt64_shape,
          show ("DateTime64").toList = 'D' :: 'a' :: ("teTime64").toList from by decide,
          List.cons_append, List.cons_append]
      rw [parseChF_not_wrap (by
        rw [pyStrip_render, hcons]
        exact matchWrap_none_of_kw
          (matchWrapKw_none_head (by decide) (by decide) (by decide)))]
      rw [pyStrip_render]
      unfold leafParse
      rw [show matchDecimal (renderTy (.datetime64 n)) = none from by
        rw [hcons]
        exact matchDecimal_none_of_kw (dropPrefCI_cons2_none
          (show ("decimal").toList = 'd' :: 'e' :: ("cimal").toList from by decide)
          (by decide) (by decide))]
      rw [show matchNumArg (("fixedstring").toList) (renderTy (.datetime64 n)) = none from by
        rw [hcons]
        exact matchNumArg_none_of_kw (dropPrefCI_cons_none
          (show ("fixedstring").toList = 'f' :: ("ixedstring").toList from by decide)
          (by decide))]
      rw [renderTy_dt64_shape, matchNumArg_render (by decide)]
  | nullable inner ih =>
    intro f hf
    cases f with
    | zero => omega
    | succ f' =>
      have hshape : renderTy (.nullable inner)
          = ("Nullable").toList ++ ('(' :: renderTy inner ++ [')']) := by
        simp only [renderTy]
        rw [show ("Nullable(").toList = ("Nullable").toList ++ ['('] from by decide]
        simp [List.append_assoc]
      have hmw : matchWrap (pyStrip (renderTy (.nullable inner)))
          = some (.nullable, renderTy inner) := by
        rw [pyStrip_render, hshape]
        exact matchWrap_of_kw (matchWrapKw_nullable _) (render_no_newline inner)
      have h9 : (("Nullable(").toList).length = 9 := by decide
      have hlen : (renderTy inner).length < f' := by
        have hlen2 : (renderTy (CHTy.nullable inner)).length
            = 9 + ((renderTy inner).length + 1) := by
          simp [renderTy, List.length_append, h9]
          omega
        omega
      simp only [parseChF]
      rw [hmw]
      simp [ih f' hlen]
  | array inner ih =>
    intro f hf
    cases f with
    | zero => omega
    | succ f' =>
      have hshape : renderTy (.array inner)
          = ("Array").toList ++ ('(' :: renderTy inner ++ [')']) := by
        simp only [renderTy]
        rw [show ("Array(").toList = ("Array").toList ++ ['('] from by decide]
        simp [List.append_assoc]
      have hmw : matchWrap (pyStrip (renderTy (.array inner)))
          = some (.array, renderTy inner) := by
        rw [pyStrip_render, hshape]
        exact matchWrap_of_kw (matchWrapKw_array _) (render_no_newline inner)
      have h6 : (("Array(").toList).length = 6 := by decide
      have hlen : (renderTy inner).length < f' := by
        have hlen2 : (renderTy (CHTy.array inner)).length
            = 6 + ((renderTy inner).length + 1) := by
          simp [renderTy, List.length_append, h6]
          omega
        omega
      simp only [parseChF]
      rw [hmw]
      simp [ih f' hlen]
  | lowCardinality inner ih =>
    intro f hf
    cases f with
    | zero => omega
    | succ f' =>
      have hshape : renderTy (.lowCardinality inner)
          = ("LowCardinality").toList ++ ('(' :: renderTy inner ++ [')']) := by
        simp only [renderTy]
        rw [show ("LowCardinality(").toList = ("LowCardinality").toList ++ ['('] from by decide]
        simp [List.append_assoc]
      have hmw : matchWrap (pyStrip (renderTy (.lowCardinality inner)))
          = some (.lowcardinality, renderTy inner) := by
        rw [pyStrip_render, hshape]
        exact matchWrap_of_kw (matchWrapKw_lowcard _) (render_no_newline inner)
      have h15 : (("LowCardinality(").toList).length = 15 := by decide
      have hlen : (renderTy inner).length < f' := by
        have hlen2 : (renderTy (CHTy.lowCardinality inner)).length
            = 15 + ((renderTy inner).length + 1) := by
          simp [renderTy, List.length_append, h15]
          omega
        omega
      simp only [parseChF]
      rw [hmw]
      simp [ih f' hlen]
  | _ =>
    intro f hf
    cases f with
    | zero => omega
    | succ f' =>
      rw [parseChF_not_wrap (by decide)]
      decide

/-- C2: parsing the rendered text of any Column Type value — leaves, parameterized
leaves, and arbitrarily nested Nullable/Array/LowCardinality wrappers — returns
exactly that value. -/
theorem C2_render_parse_roundtrip (t : CHTy) :
    _parse_ch_type (_render_type (RType.ty t)) = some t :=
  parse_render_fuel t ((renderTy t).length + 1) (Nat.lt_succ_self _)

/-- C3: on the empty string (and on whitespace-only input) engine._parse_ch_type does
not return the text type; `key.split()[0]` raises IndexError, modelled here as none. -/
theorem C3_parse_raises_on_empty :
    _parse_ch_type [] = none ∧ _parse_ch_type ((" ").toList) = none := by
  decide
